import Mathlib

set_option linter.unusedVariables false

/-!
Shallow embedding of the Pyrena arena (`pyrena.py`) and its tournament
scheduler (`tournament_scheduler.py`), together with proofs of the
behavioural claims about them.

Database tables are modelled as lists of row records; SQL statements become
pure functions from row lists to row lists.  Randomness (`random.choice`,
`random.shuffle`) is modelled by explicit oracle parameters, and the two
unbounded retry loops are given explicit fuel, returning `Option`/`Except`
so that "the function raised" is observable.  Python `defaultdict` counting
keyed by named-tuple rows is modelled by structural equality on the row
record (named tuples compare structurally in Python).
-/

/-- A row of the `submissions` table as selected by the arena queries
(`SELECT s.id, t.name, s.version, s.status, s.created_at`); `created_at` is
never consulted by the code under verification and is omitted. -/
structure Submission where
  id : Int
  name : String
  version : Int
  status : String
  deriving DecidableEq, Repr

/-- The `BYE` sentinel submission of `tournament_scheduler.py`. -/
def BYE : Submission := { id := -1, name := "BYE", version := -1, status := "BYE" }

/-- A game record as the scheduler sees it
(`SELECT id, status, winner_id, log_url FROM games`); `winner_id` is `none`
for SQL NULL. -/
structure Game where
  id : Int
  status : String
  winner_id : Option Int
  log_url : String
  deriving DecidableEq, Repr

/-- A row of the `games` table as touched by `grab_queued_game` in
`pyrena.py` (only `id` and `status` are read or written there). -/
structure GameRow where
  id : Int
  status : String
  deriving DecidableEq, Repr

/-- A row of the `games_submissions` table. -/
structure GameSubRow where
  game_id : Int
  submission_id : Int
  deriving DecidableEq, Repr

/-- A row of `get_recent_games`: game status plus the aggregated
`submission_ids` (the code splits the aggregated string back into the list
of integer ids, which is what we store directly). -/
structure RecentGame where
  status : String
  submission_ids : List Int
  deriving DecidableEq, Repr

/-- Python `sorted` on a list of integers (ascending). -/
def pySorted (l : List Int) : List Int := l.mergeSort (fun a b => a ≤ b)

/-- `ORDER BY id LIMIT 1` over a list of candidate ids: the minimum,
`none` when the list is empty. -/
def list_min : List Int → Option Int
  | [] => none
  | x :: xs =>
    match list_min xs with
    | none => some x
    | some m => some (min x m)

/-- The id selected by the inner
`SELECT id FROM games WHERE status = 'queued' ORDER BY id ... LIMIT 1`
of `grab_queued_game`. -/
def min_queued_id (games : List GameRow) : Option Int :=
  list_min ((games.filter (fun g => g.status = "queued")).map (fun g => g.id))

/-- `grab_queued_game(conn, submissions)` from `pyrena.py`: atomically flip
the lowest-id queued game to `playing` and return its id together with the
submissions (from the caller-supplied all-submissions list) whose ids occur
in that game's `games_submissions` rows.  Returns the possibly updated
`games` table alongside the optional result. -/
def grab_queued_game (games : List GameRow) (game_subs : List GameSubRow)
    (submissions : List Submission) :
    Option (Int × List Submission) × List GameRow :=
  match min_queued_id games with
  | none => (none, games)
  | some gid =>
    let games2 := games.map (fun g => if g.id = gid then { g with status := "playing" } else g)
    let submission_ids :=
      (game_subs.filter (fun gs => gs.game_id = gid)).map (fun gs => gs.submission_id)
    let pair := submissions.filter (fun s => s.id ∈ submission_ids)
    (some (gid, pair), games2)

/-- `random.choice(ids)` driven by an oracle stream `σ` at position `k`:
the oracle value is reduced modulo the length of the list.  (For an empty
list Python raises; the callers below only invoke it on nonempty lists.) -/
def random_choice (σ : Nat → Nat) (k : Nat) (ids : List Int) : Int :=
  ids.getD (σ k % ids.length) 0

/-- The `while b == a: b = random.choice(ids)` loop of `generate_pairing`,
with fuel.  Returns the chosen `b` and the next oracle position. -/
def pick_other : (σ : Nat → Nat) → (ids : List Int) → (a : Int) → Nat → Nat → Option (Int × Nat)
  | _, _, _, 0, _ => none
  | σ, ids, a, fuel + 1, k =>
    let b := random_choice σ k ids
    if b = a then pick_other σ ids a fuel (k + 1) else some (b, k + 1)

/-- `generate_pairing(submissions)` from `pyrena.py`: raise when fewer than
two submissions, else pick two distinct ids uniformly and return them
sorted (`tuple(sorted([a, b]))`).  `none` covers both the raise and oracle
fuel exhaustion; also returns the next oracle position. -/
def generate_pairing (σ : Nat → Nat) (k : Nat) (fuel : Nat) (submissions : List Submission) :
    Option ((Int × Int) × Nat) :=
  let ids := submissions.map (fun s => s.id)
  if ids.length < 2 then none
  else
    let a := random_choice σ k ids
    (pick_other σ ids a fuel (k + 1)).map (fun bk => ((min a bk.1, max a bk.1), bk.2))

/-- The `while pair in pairs: ...` retry loop of `generate_nonrecent_pairing`
(200 tries in the source; the count is a parameter here).  Returns `none`
when the loop raises `Unable to generate non-recent pairing` (or the inner
oracle fuel runs out). -/
def retry_loop (σ : Nat → Nat) (fuel : Nat) (submissions : List Submission)
    (pairs : List (List Int)) : Nat → Nat → Int × Int → Option (Int × Int)
  | 0, _, p => if [p.1, p.2] ∈ pairs then none else some p
  | tries + 1, k, p =>
    if [p.1, p.2] ∈ pairs then
      match generate_pairing σ k fuel submissions with
      | none => none
      | some (p2, k2) => if tries = 0 then none else retry_loop σ fuel submissions pairs tries k2 p2
    else some p

/-- The dictionary comprehension `{s.id: s for s in submissions}` followed
by lookup: a later submission with the same id overwrites an earlier one,
so lookup returns the last matching element. -/
def dict_lookup (submissions : List Submission) (i : Int) : Option Submission :=
  (submissions.filter (fun s => s.id = i)).getLast?

/-- `generate_nonrecent_pairing(submissions, games)` from `pyrena.py`:
collect the sorted id pairs of the non-`queued` recent games, repeatedly
generate a random pairing until it avoids them (at most 200 retries), then
hydrate the two ids back into submission records. -/
def generate_nonrecent_pairing (σ : Nat → Nat) (fuel : Nat)
    (submissions : List Submission) (games : List RecentGame) :
    Option (Submission × Submission) :=
  let pairs := (games.filter (fun g => g.status ≠ "queued")).map
    (fun g => pySorted g.submission_ids)
  match generate_pairing σ 0 fuel submissions with
  | none => none
  | some (p, k) =>
    match retry_loop σ fuel submissions pairs 200 k p with
    | none => none
    | some q =>
      match dict_lookup submissions q.1, dict_lookup submissions q.2 with
      | some sa, some sb => some (sa, sb)
      | _, _ => none

/-- Module-level names of `pyrena.py` (imports, configuration constants and
function definitions).  Name resolution for a free variable inside a
function falls back to these. -/
def pyrena_module_globals : List String :=
  ["psycopg2", "base64", "datetime", "json", "logging", "os", "pprint", "random",
   "shutil", "signal", "string", "subprocess", "sys", "time", "traceback",
   "urllib", "zipfile",
   "GAME_NAME", "DB_HOST", "DB_PORT", "DB_NAME", "DB_USER", "DB_PASS",
   "GAMESERVER_HOST", "GAMESERVER_TCPPORT", "GAMESERVER_WEBPORT",
   "DROOPY_URL", "DROOPY_CREDS", "DOCKERFILE_PATH", "RUN_FOREVER",
   "LOGFILE_PATH", "SUBMISSION_CACHE_PATH", "LOOKBACK_SECONDS",
   "CONTAINER_CPU", "CONTAINER_RAM", "MATCH_TIMEOUT", "DOCKER_BIN",
   "KNOWN_LANGUAGE_EXTENSIONS",
   "main", "sigint_handler", "get_latest_submissions", "get_all_submissions",
   "get_recent_games", "grab_queued_game", "generate_nonrecent_pairing",
   "generate_pairing", "insert_new_game_row", "submission_filename",
   "unzipped_submission_folder", "maybe_download_submission",
   "download_submission", "maybe_unzip_submission", "submission_joueur_folder",
   "verify_submission_contents", "report_prebuild_failure", "replace_dockerfile",
   "report_build_status", "submission_docker_tag", "buildlog_filename",
   "maybe_build_submission_container", "session_name", "generate_password",
   "setup_room", "docker_name", "match_stdout_path", "start_and_connect_client",
   "wait_for_clients_to_finish", "kill_remaining_clients", "upload_file_to_droopy",
   "get_match_status", "wait_for_gameserver_gamelog", "download_gamelog",
   "update_game_failed", "update_game_succeeded", "update_game_submission_logs"]

/-- Local names bound in `verify_submission_contents` before either raise
statement executes: the parameter and the assignments on its first two
lines. -/
def verify_submission_contents_locals : List String :=
  ["submission_id", "joueur_path", "dirpath", "dirnames", "filenames"]

/-- An exception value as observed by a caller. -/
inductive PyErr where
  | exception (msg : String)
  | nameError (name : String)
  deriving DecidableEq, Repr

/-- Python name resolution inside `verify_submission_contents`: a name is
defined iff it is a local, a module global of `pyrena.py`, or a builtin
used by the function (`Exception`, `next`).  Evaluating the f-string of a
`raise` statement looks its interpolated names up first; an unresolvable
name turns the raise into a `NameError` instead. -/
def resolve_in_verify (name : String) : Bool :=
  name ∈ verify_submission_contents_locals ∨
  name ∈ pyrena_module_globals ∨
  name ∈ ["Exception", "next"]

/-- Build the exception raised by
`raise Exception(f'Submission {unzipped_folder} ...')`: the f-string
evaluates `unzipped_folder` before `Exception` is constructed, so if that
name is undefined the raised exception is `NameError('unzipped_folder')`. -/
def raise_with_unzipped_folder (msg : String) : PyErr :=
  if resolve_in_verify "unzipped_folder" then PyErr.exception msg
  else PyErr.nameError "unzipped_folder"

/-- `verify_submission_contents(submission_id)` from `pyrena.py`, as a
function of the directory listing of the submission's Joueur folder
(`filenames` from `os.walk`): require a `Makefile`/`makefile` entry and a
`run` entry, raising otherwise.  Both raise statements interpolate the
undefined name `unzipped_folder` into their message. -/
def verify_submission_contents (filenames : List String) : Except PyErr Unit :=
  if "Makefile" ∉ filenames ∧ "makefile" ∉ filenames then
    Except.error (raise_with_unzipped_folder "Submission does not have Makefile")
  else if "run" ∉ filenames then
    Except.error (raise_with_unzipped_folder "Submission does not have run file")
  else Except.ok ()

/-- C9: whenever the Joueur directory listing lacks both `Makefile` and
`makefile`, or lacks `run`, `verify_submission_contents` raises — and the
exception is the `NameError` for the undefined variable `unzipped_folder`
used in the error message, not the intended descriptive exception. -/
theorem verify_submission_contents_name_error (filenames : List String)
    (h : ("Makefile" ∉ filenames ∧ "makefile" ∉ filenames) ∨ "run" ∉ filenames) :
    verify_submission_contents filenames = Except.error (PyErr.nameError "unzipped_folder") := by
  have hres : resolve_in_verify "unzipped_folder" = false := by decide
  rcases h with ⟨h1, h2⟩ | h3
  · simp [verify_submission_contents, raise_with_unzipped_folder, hres, h1, h2]
  · by_cases hmk : "Makefile" ∉ filenames ∧ "makefile" ∉ filenames
    · simp [verify_submission_contents, raise_with_unzipped_folder, hres, hmk.1, hmk.2]
    · simp only [verify_submission_contents, if_neg hmk]
      simp [raise_with_unzipped_folder, hres, h3]

/-- Witness for C9: a listing with a `makefile` but no `run` file hits the
`NameError`. -/
theorem verify_submission_contents_name_error_witness :
    verify_submission_contents ["makefile", "main.py"] =
      Except.error (PyErr.nameError "unzipped_folder") :=
  verify_submission_contents_name_error ["makefile", "main.py"] (by decide)

theorem list_min_eq_none {l : List Int} (h : list_min l = none) : l = [] := by
  cases l with
  | nil => rfl
  | cons x xs =>
    simp only [list_min] at h
    cases hm : list_min xs <;> rw [hm] at h <;> simp at h

theorem list_min_mem {l : List Int} : ∀ {m : Int}, list_min l = some m → m ∈ l := by
  induction l with
  | nil => intro m h; simp [list_min] at h
  | cons x xs ih =>
    intro m h
    simp only [list_min] at h
    cases hm : list_min xs with
    | none => rw [hm] at h; simp only [Option.some.injEq] at h; simp [h]
    | some m2 =>
      rw [hm] at h
      simp only [Option.some.injEq] at h
      subst h
      rcases min_choice x m2 with h2 | h2 <;> rw [h2]
      · exact List.mem_cons_self _ _
      · exact List.mem_cons_of_mem _ (ih hm)

theorem list_min_le {l : List Int} : ∀ {m : Int}, list_min l = some m → ∀ x ∈ l, m ≤ x := by
  induction l with
  | nil => intro m h; simp [list_min] at h
  | cons x xs ih =>
    intro m h y hy
    simp only [list_min] at h
    cases hm : list_min xs with
    | none =>
      rw [hm] at h
      simp only [Option.some.injEq] at h
      subst h
      rw [list_min_eq_none hm] at hy
      simp only [List.mem_singleton] at hy
      simp [hy]
    | some m2 =>
      rw [hm] at h
      simp only [Option.some.injEq] at h
      subst h
      rcases List.mem_cons.mp hy with h2 | h2
      · subst h2; exact min_le_left _ _
      · exact le_trans (min_le_right _ _) (ih hm y h2)

theorem countP_or_disjoint {α : Type} (p q : α → Bool) (l : List α)
    (hdisj : ∀ a ∈ l, ¬(p a = true ∧ q a = true)) :
    l.countP (fun a => p a || q a) = l.countP p + l.countP q := by
  induction l with
  | nil => simp
  | cons x xs ih =>
    have hx := hdisj x (List.mem_cons_self _ _)
    have ihx := ih (fun a ha => hdisj a (List.mem_cons_of_mem _ ha))
    by_cases hp : p x = true
    · have hq : q x = false := by
        cases hqv : q x with
        | false => rfl
        | true => exact absurd ⟨hp, hqv⟩ hx
      simp [List.countP_cons, hp, hq, ihx]
      omega
    · have hp2 : p x = false := by cases hpv : p x with
        | false => rfl
        | true => exact absurd hpv hp
      by_cases hq : q x = true
      · simp [List.countP_cons, hp2, hq, ihx]; omega
      · have hq2 : q x = false := by cases hqv : q x with
          | false => rfl
          | true => exact absurd hqv hq
        simp [List.countP_cons, hp2, hq2, ihx]

theorem countP_map_eq_one {α β : Type} [DecidableEq β] (f : α → β) (l : List α) (x : β)
    (hnd : (l.map f).Nodup) (hx : x ∈ l.map f) :
    l.countP (fun s => f s = x) = 1 := by
  induction l with
  | nil => simp at hx
  | cons a as ih =>
    simp only [List.map_cons, List.nodup_cons] at hnd
    by_cases hfa : f a = x
    · have hz : as.countP (fun s => f s = x) = 0 := by
        rw [List.countP_eq_zero]
        intro s hs
        simp only [decide_eq_true_eq]
        intro heq
        exact hnd.1 (by rw [← hfa] at heq; exact heq ▸ List.mem_map_of_mem f hs)
      simp [List.countP_cons, hfa, hz]
    · have hx2 : x ∈ as.map f := by
        simp only [List.map_cons, List.mem_cons] at hx
        rcases hx with h | h
        · exact absurd h.symm hfa
        · exact h
      simp [List.countP_cons, hfa, ih hnd.2 hx2]

/-- C1: `grab_queued_game` picks the queued game with the lowest id, flips
exactly that row to `playing` and returns its id with the submissions
hydrated from the all-submissions list; with no queued game it returns
nothing and leaves the games table unchanged.  Part three: when the game
has two distinct `games_submissions` rows and the all-submissions list
resolves ids uniquely, the returned pair is exactly those two
submissions. -/
theorem grab_queued_game_spec (games : List GameRow) (game_subs : List GameSubRow)
    (submissions : List Submission) :
    ((∀ g ∈ games, g.status ≠ "queued") →
      grab_queued_game games game_subs submissions = (none, games)) ∧
    (∀ gid, min_queued_id games = some gid →
      (∃ gq ∈ games, gq.id = gid ∧ gq.status = "queued") ∧
      (∀ g ∈ games, g.status = "queued" → gid ≤ g.id) ∧
      grab_queued_game games game_subs submissions =
        (some (gid, submissions.filter (fun s => s.id ∈
            (game_subs.filter (fun gs => gs.game_id = gid)).map (fun gs => gs.submission_id))),
         games.map (fun g => if g.id = gid then { g with status := "playing" } else g))) ∧
    (∀ gid x y, min_queued_id games = some gid →
      (game_subs.filter (fun gs => gs.game_id = gid)).map (fun gs => gs.submission_id) = [x, y] →
      x ≠ y → (submissions.map (fun s => s.id)).Nodup →
      x ∈ submissions.map (fun s => s.id) → y ∈ submissions.map (fun s => s.id) →
      ∀ pr, (grab_queued_game games game_subs submissions).1 = some (gid, pr) →
        pr.length = 2 ∧ (∀ s ∈ pr, s ∈ submissions ∧ (s.id = x ∨ s.id = y)) ∧
        (∃ s ∈ pr, s.id = x) ∧ (∃ s ∈ pr, s.id = y)) := by
  refine ⟨?_, ?_, ?_⟩
  · intro h
    have hf : games.filter (fun g => g.status = "queued") = [] := by
      rw [List.filter_eq_nil_iff]
      intro g hg
      simp [h g hg]
    simp [grab_queued_game, min_queued_id, hf, list_min]
  · intro gid hgid
    refine ⟨?_, ?_, ?_⟩
    · have hmem := list_min_mem hgid
      simp only [List.mem_map, List.mem_filter] at hmem
      obtain ⟨g, ⟨hg, hst⟩, hid⟩ := hmem
      exact ⟨g, hg, hid, by simpa using hst⟩
    · intro g hg hst
      exact list_min_le hgid g.id (by
        simp only [List.mem_map, List.mem_filter]
        exact ⟨g, ⟨hg, by simp [hst]⟩, rfl⟩)
    · simp [grab_queued_game, hgid]
  · intro gid x y hgid hxy hne hnd hx hy pr hpr
    simp only [grab_queued_game, hgid] at hpr
    simp only [Option.some.injEq, Prod.mk.injEq] at hpr
    have hpr2 : pr = submissions.filter (fun s => decide (s.id = x) || decide (s.id = y)) := by
      rw [← hpr.2]
      apply List.filter_congr
      intro s hs
      rw [hxy]
      simp [List.mem_cons]
    refine ⟨?_, ?_, ?_, ?_⟩
    · rw [hpr2, ← List.countP_eq_length_filter]
      have hd : ∀ a ∈ submissions,
          ¬((fun s : Submission => decide (s.id = x)) a = true ∧
            (fun s : Submission => decide (s.id = y)) a = true) := by
        intro s hs hc
        simp only [decide_eq_true_eq] at hc
        exact hne (by rw [← hc.1, ← hc.2])
      have h2 := countP_or_disjoint (fun s : Submission => decide (s.id = x))
        (fun s : Submission => decide (s.id = y)) submissions hd
      have h3 := countP_map_eq_one (fun s : Submission => s.id) submissions x hnd hx
      have h4 := countP_map_eq_one (fun s : Submission => s.id) submissions y hnd hy
      simp only at h2 h3 h4
      rw [h2, h3, h4]
    · intro s hs
      rw [hpr2] at hs
      simp only [List.mem_filter, Bool.or_eq_true, decide_eq_true_eq] at hs
      exact ⟨hs.1, hs.2⟩
    · obtain ⟨s, hs, hsid⟩ := List.mem_map.mp hx
      exact ⟨s, by rw [hpr2]; simp [List.mem_filter, hs, hsid], hsid⟩
    · obtain ⟨s, hs, hsid⟩ := List.mem_map.mp hy
      exact ⟨s, by rw [hpr2]; simp [List.mem_filter, hs, hsid], hsid⟩

/-- Witness for C1: a games table with queued rows 7 and 5; the claim picks
game 5, flips it to `playing`, and resolves its two submissions. -/
theorem grab_queued_game_spec_witness :
    grab_queued_game
        [⟨3, "finished"⟩, ⟨7, "queued"⟩, ⟨5, "queued"⟩]
        [⟨3, 10⟩, ⟨3, 20⟩, ⟨7, 10⟩, ⟨7, 30⟩, ⟨5, 20⟩, ⟨5, 30⟩]
        [⟨10, "A", 1, "finished"⟩, ⟨20, "B", 1, "finished"⟩, ⟨30, "C", 1, "finished"⟩] =
      (some (5, [⟨20, "B", 1, "finished"⟩, ⟨30, "C", 1, "finished"⟩]),
       [⟨3, "finished"⟩, ⟨7, "queued"⟩, ⟨5, "playing"⟩]) ∧
    (∃ s ∈ [(⟨20, "B", 1, "finished"⟩ : Submission), ⟨30, "C", 1, "finished"⟩], s.id = 20) := by
  refine ⟨?_, ?_⟩
  · have h := (grab_queued_game_spec
      [⟨3, "finished"⟩, ⟨7, "queued"⟩, ⟨5, "queued"⟩]
      [⟨3, 10⟩, ⟨3, 20⟩, ⟨7, 10⟩, ⟨7, 30⟩, ⟨5, 20⟩, ⟨5, 30⟩]
      [⟨10, "A", 1, "finished"⟩, ⟨20, "B", 1, "finished"⟩, ⟨30, "C", 1, "finished"⟩]).2.1
      5 (by decide)
    rw [h.2.2]
    decide
  · have h := (grab_queued_game_spec
      [⟨3, "finished"⟩, ⟨7, "queued"⟩, ⟨5, "queued"⟩]
      [⟨3, 10⟩, ⟨3, 20⟩, ⟨7, 10⟩, ⟨7, 30⟩, ⟨5, 20⟩, ⟨5, 30⟩]
      [⟨10, "A", 1, "finished"⟩, ⟨20, "B", 1, "finished"⟩, ⟨30, "C", 1, "finished"⟩]).2.2
      5 20 30 (by decide) (by decide) (by decide) (by decide) (by decide) (by decide)
      [⟨20, "B", 1, "finished"⟩, ⟨30, "C", 1, "finished"⟩] (by decide)
    exact h.2.2.1

theorem random_choice_mem (σ : Nat → Nat) (k : Nat) (ids : List Int) (h : ids ≠ []) :
    random_choice σ k ids ∈ ids := by
  have hlen : 0 < ids.length := List.length_pos.mpr h
  have hlt : σ k % ids.length < ids.length := Nat.mod_lt _ hlen
  unfold random_choice
  rw [List.getD_eq_getElem ids 0 hlt]
  exact List.getElem_mem hlt

theorem pick_other_spec (σ : Nat → Nat) (ids : List Int) (a : Int) (hne : ids ≠ []) :
    ∀ fuel k b k2, pick_other σ ids a fuel k = some (b, k2) → b ∈ ids ∧ b ≠ a := by
  intro fuel
  induction fuel with
  | zero => intro k b k2 h; simp [pick_other] at h
  | succ f ih =>
    intro k b k2 h
    simp only [pick_other] at h
    by_cases hb : random_choice σ k ids = a
    · rw [if_pos hb] at h
      exact ih _ _ _ h
    · rw [if_neg hb] at h
      simp only [Option.some.injEq, Prod.mk.injEq] at h
      exact ⟨h.1 ▸ random_choice_mem σ k ids hne, h.1 ▸ hb⟩

theorem generate_pairing_spec (σ : Nat → Nat) (k fuel : Nat) (subs : List Submission)
    (p : Int × Int) (k2 : Nat) (h : generate_pairing σ k fuel subs = some (p, k2)) :
    p.1 ∈ subs.map (fun s => s.id) ∧ p.2 ∈ subs.map (fun s => s.id) ∧ p.1 < p.2 := by
  simp only [generate_pairing] at h
  by_cases hlen : (subs.map (fun s => s.id)).length < 2
  · rw [if_pos hlen] at h; simp at h
  · rw [if_neg hlen] at h
    have hne : subs.map (fun s => s.id) ≠ [] := by
      intro hnil; rw [hnil] at hlen; simp at hlen
    cases hp : pick_other σ (subs.map fun s => s.id)
        (random_choice σ k (subs.map fun s => s.id)) fuel (k + 1) with
    | none => rw [hp] at h; simp at h
    | some bk =>
      rw [hp] at h
      simp only [Option.map_some', Option.some.injEq, Prod.mk.injEq] at h
      have hb := pick_other_spec σ _ _ hne fuel (k + 1) bk.1 bk.2 (by rw [hp])
      have hamem := random_choice_mem σ k (subs.map fun s => s.id) hne
      have hp1 : p.1 = min (random_choice σ k (subs.map fun s => s.id)) bk.1 := by
        rw [← h.1]
      have hp2 : p.2 = max (random_choice σ k (subs.map fun s => s.id)) bk.1 := by
        rw [← h.1]
      refine ⟨?_, ?_, ?_⟩
      · rw [hp1]
        rcases min_choice (random_choice σ k (subs.map fun s => s.id)) bk.1 with hc | hc <;>
          rw [hc]
        · exact hamem
        · exact hb.1
      · rw [hp2]
        rcases max_choice (random_choice σ k (subs.map fun s => s.id)) bk.1 with hc | hc <;>
          rw [hc]
        · exact hamem
        · exact hb.1
      · rw [hp1, hp2]
        exact min_lt_max.mpr (fun heq => hb.2 heq.symm)

theorem retry_loop_spec (σ : Nat → Nat) (fuel : Nat) (subs : List Submission)
    (pairs : List (List Int)) :
    ∀ tries k p q,
      (p.1 ∈ subs.map (fun s => s.id) ∧ p.2 ∈ subs.map (fun s => s.id) ∧ p.1 < p.2) →
      retry_loop σ fuel subs pairs tries k p = some q →
      (q.1 ∈ subs.map (fun s => s.id) ∧ q.2 ∈ subs.map (fun s => s.id) ∧ q.1 < q.2) ∧
        [q.1, q.2] ∉ pairs := by
  intro tries
  induction tries with
  | zero =>
    intro k p q hp h
    simp only [retry_loop] at h
    by_cases hin : [p.1, p.2] ∈ pairs
    · rw [if_pos hin] at h; simp at h
    · rw [if_neg hin] at h
      simp only [Option.some.injEq] at h
      exact ⟨h ▸ hp, h ▸ hin⟩
  | succ t ih =>
    intro k p q hp h
    simp only [retry_loop] at h
    by_cases hin : [p.1, p.2] ∈ pairs
    · rw [if_pos hin] at h
      cases hgp : generate_pairing σ k fuel subs with
      | none => rw [hgp] at h; simp at h
      | some pk =>
        obtain ⟨p2, k2⟩ := pk
        rw [hgp] at h
        have h2 : (if t = 0 then none else retry_loop σ fuel subs pairs t k2 p2) = some q := h
        by_cases ht : t = 0
        · rw [if_pos ht] at h2; simp at h2
        · rw [if_neg ht] at h2
          exact ih k2 p2 q (generate_pairing_spec σ k fuel subs p2 k2 hgp) h2
    · rw [if_neg hin] at h
      simp only [Option.some.injEq] at h
      exact ⟨h ▸ hp, h ▸ hin⟩

theorem dict_lookup_spec (subs : List Submission) (i : Int) (s : Submission)
    (h : dict_lookup subs i = some s) : s ∈ subs ∧ s.id = i := by
  unfold dict_lookup at h
  have hmem : s ∈ subs.filter (fun s => s.id = i) := by
    have hin : s ∈ (subs.filter (fun s => s.id = i)).getLast? := h
    obtain ⟨hne, hlast⟩ := List.mem_getLast?_eq_getLast hin
    rw [hlast]
    exact List.getLast_mem hne
  rw [List.mem_filter] at hmem
  exact ⟨hmem.1, by simpa using hmem.2⟩

/-- C4: whenever `generate_nonrecent_pairing` returns without raising, the
unordered pair it returns does not occur among the sorted id pairs of the
given recent games (excluding those still `queued`), and the two returned
submissions are distinct members of the given submission list. -/
theorem generate_nonrecent_pairing_spec (σ : Nat → Nat) (fuel : Nat)
    (subs : List Submission) (games : List RecentGame) (sa sb : Submission)
    (h : generate_nonrecent_pairing σ fuel subs games = some (sa, sb)) :
    sa ∈ subs ∧ sb ∈ subs ∧ sa.id ≠ sb.id ∧
      ∀ g ∈ games, g.status ≠ "queued" → pySorted g.submission_ids ≠ [sa.id, sb.id] := by
  simp only [generate_nonrecent_pairing] at h
  cases hgp : generate_pairing σ 0 fuel subs with
  | none => rw [hgp] at h; simp at h
  | some pk =>
    obtain ⟨p0, k0⟩ := pk
    rw [hgp] at h
    have h2 : (match retry_loop σ fuel subs
        ((games.filter (fun g => g.status ≠ "queued")).map (fun g => pySorted g.submission_ids))
        200 k0 p0 with
      | none => none
      | some q =>
        match dict_lookup subs q.1, dict_lookup subs q.2 with
        | some sa2, some sb2 => some (sa2, sb2)
        | _, _ => none) = some (sa, sb) := h
    cases hrl : retry_loop σ fuel subs
        ((games.filter (fun g => g.status ≠ "queued")).map (fun g => pySorted g.submission_ids))
        200 k0 p0 with
    | none => rw [hrl] at h2; simp at h2
    | some q =>
      rw [hrl] at h2
      have hq := retry_loop_spec σ fuel subs _ 200 k0 p0 q
        (generate_pairing_spec σ 0 fuel subs p0 k0 hgp) hrl
      have h3 : (match dict_lookup subs q.1, dict_lookup subs q.2 with
        | some sa2, some sb2 => some (sa2, sb2)
        | _, _ => none) = some (sa, sb) := h2
      cases hda : dict_lookup subs q.1 with
      | none =>
        rw [hda] at h3
        cases hdb : dict_lookup subs q.2 with
        | none => rw [hdb] at h3; exact Option.noConfusion h3
        | some sb2 => rw [hdb] at h3; exact Option.noConfusion h3
      | some sa2 =>
        rw [hda] at h3
        cases hdb : dict_lookup subs q.2 with
        | none => rw [hdb] at h3; exact Option.noConfusion h3
        | some sb2 =>
          rw [hdb] at h3
          have h4 : (some (sa2, sb2) : Option (Submission × Submission)) = some (sa, sb) := h3
          simp only [Option.some.injEq, Prod.mk.injEq] at h4
          obtain ⟨ha, hb⟩ := h4
          subst ha; subst hb
          have hsa := dict_lookup_spec subs q.1 sa2 hda
          have hsb := dict_lookup_spec subs q.2 sb2 hdb
          refine ⟨hsa.1, hsb.1, ?_, ?_⟩
          · rw [hsa.2, hsb.2]
            exact ne_of_lt hq.1.2.2
          · intro g hg hgs heq
            apply hq.2
            rw [List.mem_map]
            refine ⟨g, List.mem_filter.mpr ⟨hg, by simpa using hgs⟩, ?_⟩
            rw [heq, hsa.2, hsb.2]

/-- Witness for C4: with the identity oracle and two submissions, the
returned pairing is the two submissions themselves and avoids the (empty)
recent set. -/
theorem generate_nonrecent_pairing_spec_witness :
    generate_nonrecent_pairing (fun k => k) 5
        [⟨1, "A", 1, "finished"⟩, ⟨2, "B", 1, "finished"⟩] [] =
      some (⟨1, "A", 1, "finished"⟩, ⟨2, "B", 1, "finished"⟩) ∧
    (⟨1, "A", 1, "finished"⟩ : Submission).id ≠ (⟨2, "B", 1, "finished"⟩ : Submission).id := by
  refine ⟨by decide, ?_⟩
  exact (generate_nonrecent_pairing_spec (fun k => k) 5
    [⟨1, "A", 1, "finished"⟩, ⟨2, "B", 1, "finished"⟩] []
    ⟨1, "A", 1, "finished"⟩ ⟨2, "B", 1, "finished"⟩ (by decide)).2.2.1

/-- A bracket `Node` from `tournament_scheduler.py`.  The Python object
graph holds direct references between nodes; here nodes live in one list
and `feeders`, `inverted_feeders`, `winner_child` and `loser_child` are
indices into that list.  The per-slot fields `left_submission` /
`right_submission` / `left_feeder` / `right_feeder` / `left_inverted` /
`right_inverted` are initialised but never used by the scheduler and are
omitted. -/
structure Node where
  submissions : List Submission
  feeders : List Nat
  inverted_feeders : List Nat
  games : List Game
  winner : Option Submission
  loser : Option Submission
  winner_child : Option Nat
  loser_child : Option Nat
  deriving DecidableEq, Repr

/-- A freshly constructed `Node()`. -/
def empty_node : Node :=
  { submissions := [], feeders := [], inverted_feeders := [], games := [],
    winner := none, loser := none, winner_child := none, loser_child := none }

/-- Where `generate_initial_pairing` raises, expressed as Python exception
sites.  `width = 2**int(math.ceil(math.log2(len(submissions))) - 1)`:
for zero submissions `math.log2(0)` raises `ValueError: math domain error`;
for one submission the exponent is `-1`, so `width` is the float `0.5`,
and the next statement `shuffled_submissions += [BYE] * (2*width - len(...))`
computes the float `0.0` as the sequence multiplier and raises
`TypeError: cant multiply sequence by non-int of type float`.  The
`range(width)` on the following line would also raise a `TypeError` for a
float width, but execution never reaches it. -/
inductive InitFailure where
  | log2_domain
  | pad_times_float
  | range_float
  deriving DecidableEq, Repr

/-- `generate_initial_pairing(submissions)` from `tournament_scheduler.py`.
For `n ≥ 2` the exponent `int(math.ceil(math.log2(n)) - 1)` is the natural
number `Nat.clog 2 n - 1`, so `width = 2^(Nat.clog 2 n - 1)` leaf nodes are
built; the shuffled submission list (the `random.shuffle` permutation is
the explicit `shuffle` parameter) is padded with `BYE` to length
`2*width`, and the two assignment passes give leaf `k` the padded entries
at positions `k` and `k + width`. -/
def generate_initial_pairing (shuffle : List Submission → List Submission)
    (submissions : List Submission) : Except InitFailure (List Node) :=
  if submissions.length = 0 then Except.error InitFailure.log2_domain
  else if submissions.length = 1 then Except.error InitFailure.pad_times_float
  else
    let width := 2 ^ (Nat.clog 2 submissions.length - 1)
    let padded := shuffle submissions ++ List.replicate (2 * width - submissions.length) BYE
    Except.ok ((List.range width).map (fun k =>
      { empty_node with submissions := [padded.getD k BYE, padded.getD (k + width) BYE] }))

/-- `losses[s]` of the tick: the number of nodes whose declared loser is
`s` (the Python `defaultdict` is keyed by the named-tuple row, which
compares structurally). -/
def count_losses (nodes : List Node) (s : Submission) : Nat :=
  (nodes.filter (fun n => n.loser = some s)).length

/-- `wins[s]` of the tick: the number of nodes whose declared winner is
`s`. -/
def count_wins (nodes : List Node) (s : Submission) : Nat :=
  (nodes.filter (fun n => n.winner = some s)).length

/-- The `available` list built by `generate_n_elimination_bracket_online`:
for each node in order, its winner when it has one and no `winner_child`,
then its loser when it has one, no `loser_child`, and strictly fewer than
`max_losses` total losses. -/
def available_entries (nodes : List Node) (max_losses : Nat) : List (Nat × Submission) :=
  (List.range nodes.length).flatMap (fun i =>
    match nodes.get? i with
    | none => []
    | some nd =>
      (match nd.winner, nd.winner_child with
       | some w, none => [(i, w)]
       | _, _ => []) ++
      (match nd.loser, nd.loser_child with
       | some l, none => if count_losses nodes l < max_losses then [(i, l)] else []
       | _, _ => []))

/-- One insertion into a `defaultdict(list)`-style grouping that preserves
first-occurrence key order. -/
def group_insert {κ α : Type} [DecidableEq κ] (k : κ) (x : α) :
    List (κ × List α) → List (κ × List α)
  | [] => [(k, [x])]
  | (k2, xs) :: rest =>
    if k2 = k then (k2, xs ++ [x]) :: rest else (k2, xs) :: group_insert k x rest

/-- Grouping a list by a key, preserving insertion order of keys and of the
entries within each key (Python dict iteration order). -/
def group_by_key {κ α : Type} [DecidableEq κ] (key : α → κ) (l : List α) :
    List (κ × List α) :=
  l.foldl (fun acc x => group_insert (key x) x acc) []

/-- Stable insertion of `x` before the first element of strictly smaller
key; used to model Python `sorted(..., key=lambda p: -losses[p[1]])`. -/
def insert_by_ge {α β : Type} [LinearOrder β] (key : α → β) (x : α) :
    List α → List α
  | [] => [x]
  | y :: ys => if key y ≤ key x then x :: y :: ys else y :: insert_by_ge key x ys

/-- Stable descending sort by key (Python sorted with the negated key). -/
def sort_desc_by {α β : Type} [LinearOrder β] (key : α → β) (l : List α) : List α :=
  l.foldr (insert_by_ge key) []

/-- `pairwise(collection)` from `tournament_scheduler.py`:
`zip(*([iter(collection)] * 2))`, i.e. consecutive non-overlapping pairs
with an odd tail dropped. -/
def pairwise {α : Type} : List α → List (α × α)
  | a :: b :: rest => (a, b) :: pairwise rest
  | _ => []

/-- Processing one `(node, who)` element of a pair inside the bracket-growth
loop: if `who is node.winner`, record a feeder edge and set
`winner_child`; elif `who is node.loser`, record an inverted feeder edge
and set `loser_child`; otherwise the code only logs `bad who` and adds no
edge.  The accumulator carries the node list plus the feeder and
inverted-feeder index lists of the node under construction. -/
def process_entry (new_idx : Nat) (acc : List Node × List Nat × List Nat)
    (e : Nat × Submission) : List Node × List Nat × List Nat :=
  match acc with
  | (ns, fs, ifs) =>
    match ns.get? e.1 with
    | none => (ns, fs, ifs)
    | some nd =>
      if nd.winner = some e.2 then
        (ns.set e.1 { nd with winner_child := some new_idx }, fs ++ [e.1], ifs)
      else if nd.loser = some e.2 then
        (ns.set e.1 { nd with loser_child := some new_idx }, fs, ifs ++ [e.1])
      else (ns, fs, ifs)

/-- Processing one pair from `pairwise(node_sources)`: build the new node,
wire both endpoints, and append it (`nodes.append(new)`). -/
def process_pair (nodes : List Node) (p : (Nat × Submission) × (Nat × Submission)) :
    List Node :=
  match [p.1, p.2].foldl (process_entry nodes.length) (nodes, [], []) with
  | (ns, fs, ifs) => ns ++ [{ empty_node with feeders := fs, inverted_feeders := ifs }]

/-- All pairs of one equivalence class. -/
def apply_class (nodes : List Node) (cls : List (Nat × Submission)) : List Node :=
  (pairwise cls).foldl process_pair nodes

/-- All classes of one grouping (`for k, node_sources in group.items()`). -/
def apply_group (nodes : List Node) (g : List (List (Nat × Submission))) : List Node :=
  g.foldl apply_class nodes

/-- The `for group in groups: ... if pending_matches: break` loop.
`pending` is the value of `pending_matches` entering the loop; inside,
appending any node sets it, so after a group the loop stops iff `pending`
was already true or the group grew the node list. -/
def run_groups : List Node → Bool → List (List (List (Nat × Submission))) → List Node
  | nodes, _, [] => nodes
  | nodes, pending, g :: gs =>
    let nodes2 := apply_group nodes g
    if pending ∨ nodes.length < nodes2.length then nodes2
    else run_groups nodes2 pending gs

/-- Reference form of the loop when no match was pending: apply the first
grouping that produces any new nodes and stop there. -/
def first_producing_apply (nodes : List Node) :
    List (List (List (Nat × Submission))) → List Node
  | [] => nodes
  | g :: gs =>
    let nodes2 := apply_group nodes g
    if nodes.length < nodes2.length then nodes2 else first_producing_apply nodes gs

/-- The three groupings tried by the tick, in order: by strict
`(losses, wins)` class, by `losses` class, and the single class sorted by
descending losses.  Only the ordered entry lists matter downstream. -/
def tick_groups (nodes : List Node) (max_losses : Nat) :
    List (List (List (Nat × Submission))) :=
  let available := available_entries nodes max_losses
  [(group_by_key (fun e => (count_losses nodes e.2, count_wins nodes e.2)) available).map
      (fun kc => kc.2),
   (group_by_key (fun e => count_losses nodes e.2) available).map (fun kc => kc.2),
   [sort_desc_by (fun e => (count_losses nodes e.2 : Int)) available]]

/-- Result of one tick of `generate_n_elimination_bracket_online`: the
winner node (tournament complete), the starvation fallback (`nodes[-1]`
after the `No matches, and no available players!` error), or Python
`False`. -/
inductive TickResult where
  | winner (idx : Nat)
  | starved (idx : Nat)
  | notDone
  deriving DecidableEq, Repr

/-- `generate_n_elimination_bracket_online(submissions, nodes, max_losses)`
from `tournament_scheduler.py`: build the initial pairing when `nodes` is
empty, tally wins and losses, collect the available endpoints, detect
termination or starvation, and otherwise grow the bracket with the first
productive grouping.  Returns the tick result together with the updated
node list. -/
def generate_n_elimination_bracket_online (shuffle : List Submission → List Submission)
    (submissions : List Submission) (nodes0 : List Node) (max_losses : Nat) :
    Except InitFailure (TickResult × List Node) :=
  match (if nodes0.isEmpty then
      (generate_initial_pairing shuffle submissions).map (fun init => nodes0 ++ init)
    else Except.ok nodes0) with
  | Except.error e => Except.error e
  | Except.ok nodes =>
    let available := available_entries nodes max_losses
    let pending := nodes.any (fun n => n.winner = none)
    if pending = false ∧ available.length = 1 then
      Except.ok (TickResult.winner (available.headD (0, BYE)).1, nodes)
    else if pending = false ∧ available.length = 0 then
      Except.ok (TickResult.starved (nodes.length - 1), nodes)
    else
      Except.ok (TickResult.notDone, run_groups nodes pending (tick_groups nodes max_losses))

theorem flatMap_pair_perm {α : Type} (f g : Nat → α) :
    ∀ l : List Nat, (l.flatMap (fun k => [f k, g k])).Perm (l.map f ++ l.map g) := by
  intro l
  induction l with
  | nil => simp
  | cons a as ih =>
    simp only [List.flatMap_cons, List.map_cons, List.cons_append]
    refine List.Perm.cons (f a) ?_
    refine (List.Perm.cons (g a) ih).trans ?_
    exact List.perm_middle.symm

theorem range_map_getD_take {α : Type} (d : α) :
    ∀ (w : Nat) (l : List α), w ≤ l.length →
      (List.range w).map (fun k => l.getD k d) = l.take w := by
  intro w
  induction w with
  | zero => intro l h; simp
  | succ n ih =>
    intro l h
    have hn : n < l.length := h
    rw [List.range_succ, List.map_append, ih l (Nat.le_of_succ_le h), List.map_singleton,
      List.take_succ]
    congr 1
    rw [List.getD_eq_getElem l d hn, List.getElem?_eq_getElem hn]
    rfl

theorem range_map_getD_drop {α : Type} (d : α) (w : Nat) (l : List α)
    (hlen : l.length = 2 * w) :
    (List.range w).map (fun k => l.getD (k + w) d) = l.drop w := by
  have hdlen : (l.drop w).length = w := by
    rw [List.length_drop, hlen]; omega
  have h1 : (List.range w).map (fun k => (l.drop w).getD k d) = (l.drop w).take w :=
    range_map_getD_take d w (l.drop w) (le_of_eq hdlen.symm)
  rw [List.take_of_length_le (le_of_eq hdlen)] at h1
  rw [← h1]
  apply List.map_congr_left
  intro k hk
  rw [List.getD_eq_getD_get?, List.getD_eq_getD_get?, List.get?_drop]
  rw [Nat.add_comm]

/-- C5: for `n ≥ 2` submissions and any permutation as the shuffle,
`generate_initial_pairing` returns exactly `width = 2^(clog2 n - 1)` leaf
nodes of two entries each; the multiset of all entries is the input padded
with exactly `2*width - n` BYEs, and leaf `k` holds positions `k` and
`k + width` of the shuffled padded list. -/
theorem generate_initial_pairing_spec (shuffle : List Submission → List Submission)
    (submissions : List Submission) (h2 : 2 ≤ submissions.length)
    (hperm : (shuffle submissions).Perm submissions) :
    ∃ nodes, generate_initial_pairing shuffle submissions = Except.ok nodes ∧
      nodes.length = 2 ^ (Nat.clog 2 submissions.length - 1) ∧
      (∀ nd ∈ nodes, nd.submissions.length = 2) ∧
      (nodes.flatMap (fun nd => nd.submissions)).Perm
        (submissions ++ List.replicate
          (2 * 2 ^ (Nat.clog 2 submissions.length - 1) - submissions.length) BYE) ∧
      (∀ k, k < 2 ^ (Nat.clog 2 submissions.length - 1) →
        (nodes.get? k).map (fun nd => nd.submissions) =
          some [(shuffle submissions ++ List.replicate
              (2 * 2 ^ (Nat.clog 2 submissions.length - 1) - submissions.length) BYE).getD
                k BYE,
            (shuffle submissions ++ List.replicate
              (2 * 2 ^ (Nat.clog 2 submissions.length - 1) - submissions.length) BYE).getD
              (k + 2 ^ (Nat.clog 2 submissions.length - 1)) BYE]) := by
  have hn0 : submissions.length ≠ 0 := by omega
  have hn1 : submissions.length ≠ 1 := by omega
  set n := submissions.length with hn
  set width := 2 ^ (Nat.clog 2 n - 1) with hwidth
  have hclog : 0 < Nat.clog 2 n := Nat.clog_pos (by norm_num) h2
  have h2w : 2 * width = 2 ^ Nat.clog 2 n := by
    rw [hwidth, ← pow_succ']
    congr 1
    omega
  have hle : n ≤ 2 * width := by
    rw [h2w]
    exact Nat.le_pow_clog (by norm_num) n
  set padded := shuffle submissions ++
    List.replicate (2 * width - n) BYE with hpadded
  have hplen : padded.length = 2 * width := by
    rw [hpadded, List.length_append, List.length_replicate, hperm.length_eq]
    omega
  refine ⟨(List.range width).map (fun k =>
      { empty_node with submissions := [padded.getD k BYE, padded.getD (k + width) BYE] }),
    ?_, ?_, ?_, ?_, ?_⟩
  · simp only [generate_initial_pairing, if_neg hn0, if_neg hn1]
  · simp
  · intro nd hnd
    simp only [List.mem_map] at hnd
    obtain ⟨k, hk, hnd2⟩ := hnd
    rw [← hnd2]
    rfl
  · have hfm : (((List.range width).map (fun k =>
        { empty_node with
          submissions := [padded.getD k BYE, padded.getD (k + width) BYE] })).flatMap
        (fun nd => nd.submissions)) =
        (List.range width).flatMap
          (fun k => [padded.getD k BYE, padded.getD (k + width) BYE]) := by
      rw [List.flatMap_map]
    rw [hfm]
    refine ((flatMap_pair_perm (fun k => padded.getD k BYE)
      (fun k => padded.getD (k + width) BYE) (List.range width)).trans ?_)
    rw [range_map_getD_take BYE width padded (by omega),
      range_map_getD_drop BYE width padded hplen, List.take_append_drop]
    exact hperm.append_right _
  · intro k hk
    rw [List.get?_map]
    rw [List.get?_range hk]
    rfl

/-- Witness for C5: three submissions with the identity shuffle yield
`width = 2` leaf nodes. -/
theorem generate_initial_pairing_spec_witness :
    ∃ nodes, generate_initial_pairing (fun l => l)
        [⟨1, "A", 1, "ok"⟩, ⟨2, "B", 1, "ok"⟩, ⟨3, "C", 1, "ok"⟩] = Except.ok nodes ∧
      nodes.length = 2 ^ (Nat.clog 2
        ([(⟨1, "A", 1, "ok"⟩ : Submission), ⟨2, "B", 1, "ok"⟩, ⟨3, "C", 1, "ok"⟩]).length - 1) := by
  obtain ⟨nodes, ha, hb, _⟩ := generate_initial_pairing_spec (fun l => l)
    [⟨1, "A", 1, "ok"⟩, ⟨2, "B", 1, "ok"⟩, ⟨3, "C", 1, "ok"⟩] (by decide) (List.Perm.refl _)
  exact ⟨nodes, ha, hb⟩

/-- Counterexample for C10 as stated: for a single submission
`generate_initial_pairing` does raise, but the raising statement is the
BYE-padding `[BYE] * (2*width - len(...))` — a sequence multiplied by the
float `0.0` — which executes before `range(width)` is ever evaluated, so
the failure is not the construction of `range(width)`. -/
theorem generate_initial_pairing_single_failure_site :
    generate_initial_pairing (fun l => l) [⟨1, "A", 1, "ok"⟩] =
      Except.error InitFailure.pad_times_float ∧
    generate_initial_pairing (fun l => l) [⟨1, "A", 1, "ok"⟩] ≠
      Except.error InitFailure.range_float := by
  have h : generate_initial_pairing (fun l => l) [⟨1, "A", 1, "ok"⟩] =
      Except.error InitFailure.pad_times_float := rfl
  refine ⟨h, ?_⟩
  rw [h]
  intro hc
  injection hc with hc2
  exact InitFailure.noConfusion hc2

/-- C10 (amended): for exactly one submission, `generate_initial_pairing`
raises instead of returning nodes — `width` evaluates to the non-integer
`2^(-1) = 0.5`, and the BYE-padding statement `[BYE] * (2*width - n)`
raises a `TypeError` on its float multiplier before `range(width)` is
reached; the bracket engine thus neither collapses to a BYE-only node nor
cleanly declines to start for `n = 1`. -/
theorem generate_initial_pairing_single_raises
    (shuffle : List Submission → List Submission) (submissions : List Submission)
    (h : submissions.length = 1) :
    generate_initial_pairing shuffle submissions =
      Except.error InitFailure.pad_times_float := by
  have h0 : submissions.length ≠ 0 := by omega
  simp [generate_initial_pairing, h0, h]

/-- Witness for the amended C10. -/
theorem generate_initial_pairing_single_raises_witness :
    generate_initial_pairing (fun l => l) [⟨7, "Solo", 1, "ok"⟩] =
      Except.error InitFailure.pad_times_float :=
  generate_initial_pairing_single_raises (fun l => l) [⟨7, "Solo", 1, "ok"⟩] (by decide)

/-- The generator `g.winner_id for g in node.games if g.winner_id` feeding
`collections.Counter`: SQL NULL (and a hypothetical id `0`, which Python
truthiness would also drop) are skipped. -/
def truthy_winner_ids (games : List Game) : List Int :=
  games.filterMap (fun g => match g.winner_id with
    | some w => if w = 0 then none else some w
    | none => none)

/-- `Counter(...).items()` iteration order: keys in first-occurrence
order. -/
def counter_keys (l : List Int) : List Int :=
  l.foldl (fun acc x => if x ∈ acc then acc else acc ++ [x]) []

/-- `Counter` multiplicity of `x` in `l`. -/
def count_in (l : List Int) (x : Int) : Nat := (l.filter (fun y => y = x)).length

/-- The `for winner_id, wins in winners.items():` loop of
`declare_and_propogate_winners`: each `winner_id` whose count exceeds
`BEST_OF // 2` looks itself up in `zip(node.submissions,
reversed(node.submissions))` (first match wins, assigning winner/loser and
breaking the inner loop only); a qualifying id matching neither submission
raises.  The outer loop has no break, so later qualifying ids overwrite the
assignment.  The `winner_id is not None` conjunct is always true after the
truthy filter. -/
def declare_winner_loop (best_of : Nat) (subs : List Submission) (counts : Int → Nat) :
    List Int → Option Submission × Option Submission →
    Except String (Option Submission × Option Submission)
  | [], wl => Except.ok wl
  | wid :: rest, wl =>
    if best_of / 2 < counts wid then
      match (subs.zip subs.reverse).find? (fun pr => pr.1.id = wid) with
      | some pr => declare_winner_loop best_of subs counts rest (some pr.1, some pr.2)
      | none => Except.error "Winner was not a member of this node"
    else declare_winner_loop best_of subs counts rest wl

/-- The node-local part of `declare_and_propogate_winners` (after the
feeder recursion and `propogate_winners`): BYE handling, self-pairing, and
match declaration from the attached games.  A Python `Submission` object is
always truthy, so the `and node.submissions[k]` conjuncts of the BYE checks
hold whenever the entry exists. -/
def declare_node (best_of : Nat) (node0 : Node) : Except String Node :=
  let s0 := node0.submissions.getD 0 BYE
  let s1 := node0.submissions.getD 1 BYE
  let n1 := if node0.submissions.length = 2 ∧ s0 = BYE then
      { node0 with winner := some s1, loser := some BYE } else node0
  let n2 := if node0.submissions.length = 2 ∧ s1 = BYE then
      { n1 with winner := some s0, loser := some BYE } else n1
  let n3 := if node0.submissions.length = 2 ∧ s0 = BYE ∧ s1 = BYE then
      { n2 with winner := some BYE, loser := some BYE } else n2
  let n4 := if node0.submissions.length = 2 ∧ s0 = s1 then
      { n3 with winner := some s0, loser := some s1 } else n3
  if n4.winner = none then
    match declare_winner_loop best_of n4.submissions
        (fun x => count_in (truthy_winner_ids n4.games) x)
        (counter_keys (truthy_winner_ids n4.games)) (n4.winner, n4.loser) with
    | Except.ok wl => Except.ok { n4 with winner := wl.1, loser := wl.2 }
    | Except.error e => Except.error e
  else Except.ok n4

/-- `propogate_winners(node)`: when the node has any feeders, its
submissions become the feeders' winners followed by the inverted feeders'
losers (undeclared ones are skipped). -/
def propogate_winners (nodes : List Node) (i : Nat) : List Node :=
  match nodes.get? i with
  | none => nodes
  | some nd =>
    if nd.feeders = [] ∧ nd.inverted_feeders = [] then nodes
    else
      nodes.set i { nd with submissions :=
        (nd.feeders.filterMap (fun f => (nodes.get? f).bind (fun x => x.winner))) ++
        (nd.inverted_feeders.filterMap (fun f => (nodes.get? f).bind (fun x => x.loser))) }

/-- `declare_and_propogate_winners(node)` over the indexed node list, with
explicit recursion fuel (in the program feeders always point to
previously created nodes, so the recursion terminates; exhausted fuel
returns the state unchanged).  A node that already has both winner and
loser returns immediately, before any mutation. -/
def declare_and_propogate_winners (best_of : Nat) :
    Nat → List Node → Nat → Except String (List Node)
  | 0, nodes, _ => Except.ok nodes
  | fuel + 1, nodes, i =>
    match nodes.get? i with
    | none => Except.ok nodes
    | some nd =>
      if nd.winner ≠ none ∧ nd.loser ≠ none then Except.ok nodes
      else
        match nd.feeders.foldlM
            (fun ns f => declare_and_propogate_winners best_of fuel ns f) nodes with
        | Except.error e => Except.error e
        | Except.ok ns =>
          let ns2 := propogate_winners ns i
          match ns2.get? i with
          | none => Except.ok ns2
          | some nd2 =>
            match declare_node best_of nd2 with
            | Except.ok nd3 => Except.ok (ns2.set i nd3)
            | Except.error e => Except.error e

/-- A node holding eight games bearing winner ids: four for submission 1
first, then four for submission 2 (`BEST_OF = 7`, threshold `7 // 2 = 3`,
so both ids qualify). -/
def ce2_node : Node :=
  { submissions := [⟨1, "A", 1, "ok"⟩, ⟨2, "B", 1, "ok"⟩],
    feeders := [], inverted_feeders := [],
    games := [⟨1, "finished", some 1, "u"⟩, ⟨2, "finished", some 1, "u"⟩,
      ⟨3, "finished", some 1, "u"⟩, ⟨4, "finished", some 1, "u"⟩,
      ⟨5, "finished", some 2, "u"⟩, ⟨6, "finished", some 2, "u"⟩,
      ⟨7, "finished", some 2, "u"⟩, ⟨8, "finished", some 2, "u"⟩],
    winner := none, loser := none, winner_child := none, loser_child := none }

/-- Counterexample for C2 as stated: with games giving four wins to id 1
(first in `Counter` order) and four to id 2, both exceed `BEST_OF // 2 = 3`
and the outer loop has no break, so the declared winner is submission 2 —
the LAST qualifying winner id — not the first as the claim says. -/
theorem declare_first_winner_counterexample :
    declare_and_propogate_winners 7 1 [ce2_node] 0 =
      Except.ok [{ ce2_node with
        winner := some ⟨2, "B", 1, "ok"⟩, loser := some ⟨1, "A", 1, "ok"⟩ }] ∧
    some (⟨2, "B", 1, "ok"⟩ : Submission) ≠ some (⟨1, "A", 1, "ok"⟩ : Submission) := by
  refine ⟨rfl, ?_⟩
  decide

theorem getLast?_cons_of_ne_nil {α : Type} (x : α) {l : List α} (h : l ≠ []) :
    (x :: l).getLast? = l.getLast? := by
  cases l with
  | nil => exact absurd rfl h
  | cons b bs => exact List.getLast?_cons_cons

theorem declare_winner_loop_spec (best_of : Nat) (a b : Submission) (hid : a.id ≠ b.id)
    (counts : Int → Nat) :
    ∀ (ids : List Int) (wl : Option Submission × Option Submission),
      ((∀ w ∈ ids.filter (fun w => decide (best_of / 2 < counts w)), w = a.id ∨ w = b.id) →
        declare_winner_loop best_of [a, b] counts ids wl =
          Except.ok
            (match (ids.filter (fun w => decide (best_of / 2 < counts w))).getLast? with
              | none => wl
              | some w => if w = a.id then (some a, some b) else (some b, some a))) ∧
      ((∃ w ∈ ids.filter (fun w => decide (best_of / 2 < counts w)), w ≠ a.id ∧ w ≠ b.id) →
        ∃ e, declare_winner_loop best_of [a, b] counts ids wl = Except.error e) := by
  intro ids
  induction ids with
  | nil =>
    intro wl
    constructor
    · intro _; rfl
    · intro h; simp at h
  | cons wid rest ih =>
    intro wl
    constructor
    · intro hall
      by_cases hq : best_of / 2 < counts wid
      · have hfl : (wid :: rest).filter (fun w => decide (best_of / 2 < counts w)) =
            wid :: rest.filter (fun w => decide (best_of / 2 < counts w)) := by
          simp [List.filter_cons, hq]
        have hwid : wid = a.id ∨ wid = b.id := by
          apply hall; rw [hfl]; exact List.mem_cons_self _ _
        have htail : ∀ w ∈ rest.filter (fun w => decide (best_of / 2 < counts w)),
            w = a.id ∨ w = b.id := by
          intro w hwm
          exact hall w (by rw [hfl]; exact List.mem_cons_of_mem _ hwm)
        rcases hwid with hw | hw
        · have hba : (decide (a.id = wid)) = true := decide_eq_true hw.symm
          have hfind2 : ([a, b].zip [a, b].reverse).find? (fun pr => pr.1.id = wid) =
              some (a, b) := by
            show List.find? (fun pr : Submission × Submission => decide (pr.1.id = wid))
              [(a, b), (b, a)] = some (a, b)
            simp [List.find?_cons, hba]
          simp only [declare_winner_loop, if_pos hq, hfind2]
          rw [(ih (some a, some b)).1 htail, hfl]
          cases hre : rest.filter (fun w => decide (best_of / 2 < counts w)) with
          | nil => simp [hw]
          | cons c cs =>
            rw [getLast?_cons_of_ne_nil wid (List.cons_ne_nil c cs)]
            obtain ⟨y, hy⟩ : ∃ y, (c :: cs).getLast? = some y :=
              ⟨(c :: cs).getLast (List.cons_ne_nil c cs),
                List.getLast?_eq_getLast_of_ne_nil (List.cons_ne_nil c cs)⟩
            rw [hy]
        · have hba : (decide (a.id = wid)) = false :=
            decide_eq_false (fun hh => hid (hw ▸ hh))
          have hbb : (decide (b.id = wid)) = true := decide_eq_true hw.symm
          have hfind2 : ([a, b].zip [a, b].reverse).find? (fun pr => pr.1.id = wid) =
              some (b, a) := by
            show List.find? (fun pr : Submission × Submission => decide (pr.1.id = wid))
              [(a, b), (b, a)] = some (b, a)
            simp [List.find?_cons, hba, hbb]
          simp only [declare_winner_loop, if_pos hq, hfind2]
          rw [(ih (some b, some a)).1 htail, hfl]
          have hne : ¬ (wid = a.id) := by rw [hw]; exact fun hh => hid hh.symm
          cases hre : rest.filter (fun w => decide (best_of / 2 < counts w)) with
          | nil => simp [hne]
          | cons c cs =>
            rw [getLast?_cons_of_ne_nil wid (List.cons_ne_nil c cs)]
            obtain ⟨y, hy⟩ : ∃ y, (c :: cs).getLast? = some y :=
              ⟨(c :: cs).getLast (List.cons_ne_nil c cs),
                List.getLast?_eq_getLast_of_ne_nil (List.cons_ne_nil c cs)⟩
            rw [hy]
      · have hfl : (wid :: rest).filter (fun w => decide (best_of / 2 < counts w)) =
            rest.filter (fun w => decide (best_of / 2 < counts w)) := by
          simp [List.filter_cons, hq]
        have htail : ∀ w ∈ rest.filter (fun w => decide (best_of / 2 < counts w)),
            w = a.id ∨ w = b.id := by
          intro w hwm
          exact hall w (by rw [hfl]; exact hwm)
        simp only [declare_winner_loop, if_neg hq]
        rw [(ih wl).1 htail, hfl]
    · rintro ⟨w, hwm, hwa, hwb⟩
      by_cases hq : best_of / 2 < counts wid
      · have hfl : (wid :: rest).filter (fun w => decide (best_of / 2 < counts w)) =
            wid :: rest.filter (fun w => decide (best_of / 2 < counts w)) := by
          simp [List.filter_cons, hq]
        rw [hfl] at hwm
        by_cases hwida : wid = a.id
        · have hba : (decide (a.id = wid)) = true := decide_eq_true hwida.symm
          have hfind2 : ([a, b].zip [a, b].reverse).find? (fun pr => pr.1.id = wid) =
              some (a, b) := by
            show List.find? (fun pr : Submission × Submission => decide (pr.1.id = wid))
              [(a, b), (b, a)] = some (a, b)
            simp [List.find?_cons, hba]
          simp only [declare_winner_loop, if_pos hq, hfind2]
          apply (ih (some a, some b)).2
          refine ⟨w, ?_, hwa, hwb⟩
          rcases List.mem_cons.mp hwm with h | h
          · exact absurd (h ▸ hwida) hwa
          · exact h
        · by_cases hwidb : wid = b.id
          · have hba : (decide (a.id = wid)) = false :=
              decide_eq_false (fun hh => hwida hh.symm)
            have hbb : (decide (b.id = wid)) = true := decide_eq_true hwidb.symm
            have hfind2 : ([a, b].zip [a, b].reverse).find? (fun pr => pr.1.id = wid) =
                some (b, a) := by
              show List.find? (fun pr : Submission × Submission => decide (pr.1.id = wid))
                [(a, b), (b, a)] = some (b, a)
              simp [List.find?_cons, hba, hbb]
            simp only [declare_winner_loop, if_pos hq, hfind2]
            apply (ih (some b, some a)).2
            refine ⟨w, ?_, hwa, hwb⟩
            rcases List.mem_cons.mp hwm with h | h
            · exact absurd (h ▸ hwidb) hwb
            · exact h
          · have hba : (decide (a.id = wid)) = false :=
              decide_eq_false (fun hh => hwida hh.symm)
            have hbb : (decide (b.id = wid)) = false :=
              decide_eq_false (fun hh => hwidb hh.symm)
            have hfind2 : ([a, b].zip [a, b].reverse).find? (fun pr => pr.1.id = wid) =
                none := by
              show List.find? (fun pr : Submission × Submission => decide (pr.1.id = wid))
                [(a, b), (b, a)] = none
              simp [List.find?_cons, hba, hbb]
            refine ⟨"Winner was not a member of this node", ?_⟩
            simp only [declare_winner_loop, if_pos hq, hfind2]
      · have hfl : (wid :: rest).filter (fun w => decide (best_of / 2 < counts w)) =
            rest.filter (fun w => decide (best_of / 2 < counts w)) := by
          simp [List.filter_cons, hq]
        rw [hfl] at hwm
        simp only [declare_winner_loop, if_neg hq]
        exact (ih wl).2 ⟨w, hwm, hwa, hwb⟩

/-- C2 (amended): for a node with two distinct real submissions and no
winner yet, `declare_and_propogate_winners` counts the attached games by
(non-null) `winner_id`; every counted id with strictly more than
`BEST_OF // 2` wins is processed in first-occurrence order, each one
overwriting `node.winner`/`node.loser`, so the LAST such winner id (not
the first) determines the final winner, with the opposing submission as
loser; if any such winner id matches neither submission, an error is
raised. -/
theorem declare_and_propogate_winners_match_decision
    (best_of fuel : Nat) (a b : Submission) (gs : List Game)
    (lo : Option Submission) (wc lc : Option Nat) (qual : List Int)
    (ha : a ≠ BYE) (hb : b ≠ BYE) (hab : a ≠ b) (hid : a.id ≠ b.id)
    (hqual : qual = (counter_keys (truthy_winner_ids gs)).filter
      (fun w => decide (best_of / 2 < count_in (truthy_winner_ids gs) w))) :
    ((∀ w ∈ qual, w = a.id ∨ w = b.id) →
      declare_and_propogate_winners best_of (fuel + 1)
          [⟨[a, b], [], [], gs, none, lo, wc, lc⟩] 0 =
        Except.ok [match qual.getLast? with
          | none => ⟨[a, b], [], [], gs, none, lo, wc, lc⟩
          | some w =>
            if w = a.id then ⟨[a, b], [], [], gs, some a, some b, wc, lc⟩
            else ⟨[a, b], [], [], gs, some b, some a, wc, lc⟩]) ∧
    ((∃ w ∈ qual, w ≠ a.id ∧ w ≠ b.id) →
      ∃ e, declare_and_propogate_winners best_of (fuel + 1)
          [⟨[a, b], [], [], gs, none, lo, wc, lc⟩] 0 = Except.error e) := by
  have hstep : declare_and_propogate_winners best_of (fuel + 1)
      [⟨[a, b], [], [], gs, none, lo, wc, lc⟩] 0 =
      (match declare_node best_of ⟨[a, b], [], [], gs, none, lo, wc, lc⟩ with
       | Except.ok nd3 => Except.ok [nd3]
       | Except.error e => Except.error e) := rfl
  have hn1 : declare_node best_of ⟨[a, b], [], [], gs, none, lo, wc, lc⟩ =
      (match declare_winner_loop best_of [a, b]
          (fun x => count_in (truthy_winner_ids gs) x)
          (counter_keys (truthy_winner_ids gs)) (none, lo) with
       | Except.ok wl =>
         Except.ok ⟨[a, b], [], [], gs, wl.1, wl.2, wc, lc⟩
       | Except.error e => Except.error e) := by
    simp only [declare_node, List.getD_cons_zero, List.getD_cons_succ]
    rw [if_neg (show ¬([a, b].length = 2 ∧ a = BYE) from fun hc => ha hc.2)]
    rw [if_neg (show ¬([a, b].length = 2 ∧ b = BYE) from fun hc => hb hc.2)]
    rw [if_neg (show ¬([a, b].length = 2 ∧ a = BYE ∧ b = BYE) from fun hc => ha hc.2.1)]
    rw [if_neg (show ¬([a, b].length = 2 ∧ a = b) from fun hc => hab hc.2)]
    rfl
  constructor
  · intro hall
    rw [hstep, hn1,
      (declare_winner_loop_spec best_of a b hid
        (fun x => count_in (truthy_winner_ids gs) x)
        (counter_keys (truthy_winner_ids gs)) (none, lo)).1 (by rw [← hqual]; exact hall)]
    rw [← hqual]
    cases hgl : qual.getLast? with
    | none => rfl
    | some w =>
      by_cases hwa : w = a.id
      · simp [hwa]
      · simp [hwa]
  · rintro ⟨w, hwm, hwno⟩
    obtain ⟨e, he⟩ := (declare_winner_loop_spec best_of a b hid
      (fun x => count_in (truthy_winner_ids gs) x)
      (counter_keys (truthy_winner_ids gs)) (none, lo)).2
      ⟨w, by rw [← hqual]; exact hwm, hwno⟩
    exact ⟨e, by rw [hstep, hn1, he]⟩

/-- Witness for the amended C2: the eight-game node of the counterexample
satisfies the all-ids-match hypothesis, and the theorem computes its
declared winner (the last qualifying id, submission 2). -/
theorem declare_and_propogate_winners_match_decision_witness :
    declare_and_propogate_winners 7 1 [ce2_node] 0 =
      Except.ok [{ ce2_node with
        winner := some ⟨2, "B", 1, "ok"⟩, loser := some ⟨1, "A", 1, "ok"⟩ }] := by
  have h := (declare_and_propogate_winners_match_decision 7 0
    ⟨1, "A", 1, "ok"⟩ ⟨2, "B", 1, "ok"⟩ ce2_node.games none none none [1, 2]
    (by decide) (by decide) (by decide) (by decide) (by decide)).1 (by decide)
  exact h

/-- A row of the `games` table as the scheduler's queries see it, including
the two `games_submissions` rows (`sub1`/`sub2` in insertion order). -/
structure DbGame where
  id : Int
  status : String
  winner_id : Option Int
  log_url : String
  sub1 : Int
  sub2 : Int
  deriving DecidableEq, Repr

/-- Project a database row to the `(id, status, winner_id, log_url)` shape
returned by the scheduler's SELECTs. -/
def db_game_to_game (r : DbGame) : Game :=
  { id := r.id, status := r.status, winner_id := r.winner_id, log_url := r.log_url }

/-- `get_games(conn, game_ids)`:
`SELECT id, status, winner_id, log_url FROM games WHERE id IN %s`. -/
def get_games (db : List DbGame) (ids : List Int) : List Game :=
  (db.filter (fun r => r.id ∈ ids)).map db_game_to_game

/-- The `game_ids` list collected by `update_game_status`: ids of attached
games whose recorded status is not `finished`. -/
def stale_game_ids (levels : List (List Node)) : List Int :=
  levels.flatMap (fun lvl => lvl.flatMap (fun n =>
    (n.games.filter (fun g => g.status ≠ "finished")).map (fun g => g.id)))

/-- `update_game_status(conn, levels)`: re-fetch the non-finished attached
games by id and overwrite each attached game whose id was fetched
(`games_by_id` keeps the last row per id, mirroring the dict
comprehension). -/
def update_game_status (db : List DbGame) (levels : List (List Node)) :
    List (List Node) :=
  let game_ids := stale_game_ids levels
  if game_ids = [] then levels
  else
    let games := get_games db game_ids
    levels.map (fun lvl => lvl.map (fun n =>
      { n with games := n.games.map (fun g =>
          match (games.filter (fun g2 => g2.id = g.id)).getLast? with
          | some g2 => g2
          | none => g) }))

/-- The attached game at position `gi` of node `ni` of level `li`. -/
def game_at (levels : List (List Node)) (li ni gi : Nat) : Option Game :=
  ((levels.get? li).bind (fun lvl => lvl.get? ni)).bind (fun n => n.games.get? gi)

theorem foldlM_except_preserve {α : Type} (P : α → Prop)
    (step : α → Nat → Except String α)
    (hstep : ∀ x f y, P x → step x f = Except.ok y → P y) :
    ∀ (l : List Nat) (x y : α), P x → l.foldlM step x = Except.ok y → P y := by
  intro l
  induction l with
  | nil =>
    intro x y hx h
    have h2 : Except.ok x = Except.ok y := h
    injection h2 with h3
    rw [← h3]
    exact hx
  | cons f fs ih =>
    intro x y hx h
    rw [List.foldlM_cons] at h
    cases hs : step x f with
    | error e =>
      rw [hs] at h
      exact Except.noConfusion (show (Except.error e : Except String α) = Except.ok y from h)
    | ok x2 =>
      rw [hs] at h
      exact ih x2 y (hstep x f x2 hx hs) h

theorem propogate_winners_get_ne (ns : List Node) (j i : Nat) (hij : i ≠ j) :
    (propogate_winners ns j).get? i = ns.get? i := by
  unfold propogate_winners
  split
  · rfl
  · split
    · rfl
    · exact List.get?_set_ne _ _ (fun he => hij he.symm)

theorem declare_preserves_decided (best_of : Nat) (i : Nat) (nd : Node)
    (hw : nd.winner ≠ none) (hl : nd.loser ≠ none) :
    ∀ fuel nodes j res, nodes.get? i = some nd →
      declare_and_propogate_winners best_of fuel nodes j = Except.ok res →
      res.get? i = some nd := by
  intro fuel
  induction fuel with
  | zero =>
    intro nodes j res hi h
    have h2 : Except.ok nodes = Except.ok res := h
    injection h2 with h3
    rw [← h3]
    exact hi
  | succ f ih =>
    intro nodes j res hi h
    simp only [declare_and_propogate_winners] at h
    cases hj : nodes.get? j with
    | none =>
      rw [hj] at h
      have h2 : Except.ok nodes = Except.ok res := h
      injection h2 with h3
      rw [← h3]
      exact hi
    | some ndj =>
      rw [hj] at h
      have h4 : (if ndj.winner ≠ none ∧ ndj.loser ≠ none then Except.ok nodes
          else match ndj.feeders.foldlM
              (fun ns f2 => declare_and_propogate_winners best_of f ns f2) nodes with
            | Except.error e => Except.error e
            | Except.ok ns =>
              match (propogate_winners ns j).get? j with
              | none => Except.ok (propogate_winners ns j)
              | some nd2 =>
                match declare_node best_of nd2 with
                | Except.ok nd3 => Except.ok ((propogate_winners ns j).set j nd3)
                | Except.error e => Except.error e) = Except.ok res := h
      by_cases hdec : ndj.winner ≠ none ∧ ndj.loser ≠ none
      · rw [if_pos hdec] at h4
        injection h4 with h3
        rw [← h3]
        exact hi
      · rw [if_neg hdec] at h4
        have hij : i ≠ j := by
          intro he
          subst he
          rw [hi] at hj
          injection hj with hh
          rw [← hh] at hdec
          exact hdec ⟨hw, hl⟩
        cases hfold : ndj.feeders.foldlM
            (fun ns f2 => declare_and_propogate_winners best_of f ns f2) nodes with
        | error e =>
          rw [hfold] at h4
          exact Except.noConfusion
            (show (Except.error e : Except String (List Node)) = Except.ok res from h4)
        | ok ns =>
          rw [hfold] at h4
          have hns : ns.get? i = some nd :=
            foldlM_except_preserve (fun x => x.get? i = some nd)
              (fun ns2 f2 => declare_and_propogate_winners best_of f ns2 f2)
              (fun x f2 y hx hxy => ih x f2 y hx hxy)
              ndj.feeders nodes ns hi hfold
          have hns2 : (propogate_winners ns j).get? i = some nd := by
            rw [propogate_winners_get_ne ns j i hij]
            exact hns
          have h5 : (match (propogate_winners ns j).get? j with
              | none => Except.ok (propogate_winners ns j)
              | some nd2 =>
                match declare_node best_of nd2 with
                | Except.ok nd3 => Except.ok ((propogate_winners ns j).set j nd3)
                | Except.error e => Except.error e) = Except.ok res := h4
          cases hg : (propogate_winners ns j).get? j with
          | none =>
            rw [hg] at h5
            injection h5 with h3
            rw [← h3]
            exact hns2
          | some nd2 =>
            rw [hg] at h5
            have h6 : (match declare_node best_of nd2 with
                | Except.ok nd3 => Except.ok ((propogate_winners ns j).set j nd3)
                | Except.error e => Except.error e) = Except.ok res := h5
            cases hdn : declare_node best_of nd2 with
            | error e =>
              rw [hdn] at h6
              exact Except.noConfusion
                (show (Except.error e : Except String (List Node)) = Except.ok res from h6)
            | ok nd3 =>
              rw [hdn] at h6
              injection h6 with h3
              rw [← h3]
              rw [List.get?_set_ne _ _ (fun he => hij he.symm)]
              exact hns2

/-- All games attached anywhere in the given levels, in traversal order. -/
def all_attached_games (levels : List (List Node)) : List Game :=
  levels.flatMap (fun lvl => lvl.flatMap (fun n => n.games))

theorem get_games_mem_ids {db : List DbGame} {ids : List Int} {g : Game}
    (h : g ∈ get_games db ids) : g.id ∈ ids := by
  simp only [get_games, List.mem_map, List.mem_filter] at h
  obtain ⟨r, ⟨hr, hid⟩, hg⟩ := h
  rw [← hg]
  simpa [db_game_to_game] using hid

theorem game_at_mem_attached {levels : List (List Node)} {li ni gi : Nat} {g : Game}
    (hga : game_at levels li ni gi = some g) : g ∈ all_attached_games levels := by
  unfold game_at at hga
  cases hli : levels.get? li with
  | none => rw [hli] at hga; simp at hga
  | some lvl =>
    rw [hli] at hga
    simp only [Option.some_bind] at hga
    cases hni : lvl.get? ni with
    | none => rw [hni] at hga; simp at hga
    | some n =>
      rw [hni] at hga
      simp only [Option.some_bind] at hga
      have hgm : g ∈ n.games := List.get?_mem hga
      simp only [all_attached_games, List.mem_flatMap]
      exact ⟨lvl, List.get?_mem hli, n, List.get?_mem hni, hgm⟩

theorem stale_id_has_stale_game {levels : List (List Node)} {x : Int}
    (h : x ∈ stale_game_ids levels) :
    ∃ g2 ∈ all_attached_games levels, g2.status ≠ "finished" ∧ g2.id = x := by
  simp only [stale_game_ids, List.mem_flatMap, List.mem_map, List.mem_filter] at h
  obtain ⟨lvl, hlvl, n, hn, g2, ⟨hg2, hst⟩, hid⟩ := h
  refine ⟨g2, ?_, by simpa using hst, hid⟩
  simp only [all_attached_games, List.mem_flatMap]
  exact ⟨lvl, hlvl, n, hn, hg2⟩

theorem finished_game_not_stale {levels : List (List Node)} {li ni gi : Nat} {g : Game}
    (hnd : ((all_attached_games levels).map (fun gg => gg.id)).Nodup)
    (hga : game_at levels li ni gi = some g) (hfin : g.status = "finished") :
    g.id ∉ stale_game_ids levels := by
  intro hmem
  obtain ⟨g2, hg2m, hg2st, hg2id⟩ := stale_id_has_stale_game hmem
  have heq : g2 = g :=
    List.inj_on_of_nodup_map hnd hg2m (game_at_mem_attached hga) hg2id
  rw [heq] at hg2st
  exact hg2st hfin

theorem game_at_update_of_not_stale (db : List DbGame) (levels : List (List Node))
    (li ni gi : Nat) (g : Game) (hga : game_at levels li ni gi = some g)
    (hnotin : g.id ∉ stale_game_ids levels) :
    game_at (update_game_status db levels) li ni gi = some g := by
  unfold update_game_status
  by_cases hids : stale_game_ids levels = []
  · rw [if_pos hids]
    exact hga
  · rw [if_neg hids]
    unfold game_at at hga ⊢
    cases hli : levels.get? li with
    | none => rw [hli] at hga; simp at hga
    | some lvl =>
      rw [hli] at hga
      simp only [Option.some_bind] at hga
      cases hni : lvl.get? ni with
      | none => rw [hni] at hga; simp at hga
      | some n =>
        rw [hni] at hga
        simp only [Option.some_bind] at hga
        rw [List.get?_map, hli]
        simp only [Option.map_some', Option.some_bind]
        rw [List.get?_map, hni]
        simp only [Option.map_some', Option.some_bind]
        show (n.games.map _).get? gi = some g
        rw [List.get?_map, hga]
        simp only [Option.map_some', Option.some.injEq]
        have hfe : (get_games db (stale_game_ids levels)).filter
            (fun g2 => g2.id = g.id) = [] := by
          rw [List.filter_eq_nil_iff]
          intro g2 hg2
          simp only [decide_eq_true_eq]
          intro hid2
          exact hnotin (hid2 ▸ get_games_mem_ids hg2)
        rw [hfe]
        rfl

/-- C8: (1) once a node has both winner and loser, any call of
`declare_and_propogate_winners` on any index leaves that node's entry —
winner, loser and submissions included — untouched; (2) with the attached
game ids pairwise distinct, the per-tick `update_game_status` neither
collects (re-fetches) nor overwrites a game whose recorded status is
`finished`. -/
theorem decided_node_and_finished_game_frozen :
    (∀ (best_of fuel : Nat) (nodes : List Node) (i j : Nat) (nd : Node)
        (res : List Node),
      nodes.get? i = some nd → nd.winner ≠ none → nd.loser ≠ none →
      declare_and_propogate_winners best_of fuel nodes j = Except.ok res →
      res.get? i = some nd) ∧
    (∀ (db : List DbGame) (levels : List (List Node)) (li ni gi : Nat) (g : Game),
      ((all_attached_games levels).map (fun gg => gg.id)).Nodup →
      game_at levels li ni gi = some g → g.status = "finished" →
      g.id ∉ stale_game_ids levels ∧
        game_at (update_game_status db levels) li ni gi = some g) := by
  constructor
  · intro best_of fuel nodes i j nd res hi hw hl h
    exact declare_preserves_decided best_of i nd hw hl fuel nodes j res hi h
  · intro db levels li ni gi g hnd hga hfin
    have hnot := finished_game_not_stale hnd hga hfin
    exact ⟨hnot, game_at_update_of_not_stale db levels li ni gi g hga hnot⟩

/-- A decided node used by the C8 witness. -/
def c8_node : Node :=
  ⟨[⟨1, "A", 1, "ok"⟩, ⟨2, "B", 1, "ok"⟩], [], [],
    [⟨1, "finished", some 1, "u"⟩], some ⟨1, "A", 1, "ok"⟩,
    some ⟨2, "B", 1, "ok"⟩, none, none⟩

/-- Levels with one finished and one queued attached game, for the C8
witness. -/
def c8_levels : List (List Node) :=
  [[⟨[], [], [], [⟨5, "finished", some 1, "u"⟩, ⟨6, "queued", none, ""⟩],
    none, none, none, none⟩]]

/-- Witness for C8: a decided node survives a declare pass unchanged, and a
finished attached game survives the status refresh while a queued sibling
is re-fetched. -/
theorem decided_node_and_finished_game_frozen_witness :
    (declare_and_propogate_winners 7 3 [c8_node] 0 = Except.ok [c8_node] →
      ([c8_node] : List Node).get? 0 = some c8_node) ∧
    ((5 : Int) ∉ stale_game_ids c8_levels ∧
      game_at (update_game_status [⟨6, "finished", some 2, "log", 1, 2⟩] c8_levels) 0 0 0 =
        some ⟨5, "finished", some 1, "u"⟩) := by
  constructor
  · intro h
    exact decided_node_and_finished_game_frozen.1 7 3 [c8_node] 0 0 c8_node [c8_node]
      rfl (by decide) (by decide) h
  · exact decided_node_and_finished_game_frozen.2
      [⟨6, "finished", some 2, "log", 1, 2⟩] c8_levels 0 0 0
      ⟨5, "finished", some 1, "u"⟩ (by decide) rfl rfl

theorem process_entry_fst_length (new_idx : Nat) (acc : List Node × List Nat × List Nat)
    (e : Nat × Submission) :
    (process_entry new_idx acc e).1.length = acc.1.length := by
  obtain ⟨ns, fs, ifs⟩ := acc
  show (match ns.get? e.1 with
      | none => (ns, fs, ifs)
      | some nd =>
        if nd.winner = some e.2 then
          (ns.set e.1 { nd with winner_child := some new_idx }, fs ++ [e.1], ifs)
        else if nd.loser = some e.2 then
          (ns.set e.1 { nd with loser_child := some new_idx }, fs, ifs ++ [e.1])
        else (ns, fs, ifs)).1.length = ns.length
  split
  · rfl
  · split
    · simp [List.length_set]
    · split
      · simp [List.length_set]
      · rfl

theorem process_pair_length (nodes : List Node) (p : (Nat × Submission) × (Nat × Submission)) :
    (process_pair nodes p).length = nodes.length + 1 := by
  unfold process_pair
  cases hfold : [p.1, p.2].foldl (process_entry nodes.length) (nodes, [], []) with
  | mk ns rest =>
    have hfold2 : process_entry nodes.length
        (process_entry nodes.length (nodes, [], []) p.1) p.2 = (ns, rest) := hfold
    have hns : ns = (process_entry nodes.length
        (process_entry nodes.length (nodes, [], []) p.1) p.2).1 := by rw [hfold2]
    have h1 := process_entry_fst_length nodes.length (nodes, [], []) p.1
    have h2 := process_entry_fst_length nodes.length
      (process_entry nodes.length (nodes, [], []) p.1) p.2
    have hlen : ns.length = nodes.length := by rw [hns, h2, h1]
    simp [hlen]

theorem foldl_process_pair_length :
    ∀ (ps : List ((Nat × Submission) × (Nat × Submission))) (nodes : List Node),
      (ps.foldl process_pair nodes).length = nodes.length + ps.length := by
  intro ps
  induction ps with
  | nil => intro nodes; rfl
  | cons p rest ih =>
    intro nodes
    simp only [List.foldl_cons, ih, process_pair_length, List.length_cons]
    omega

theorem apply_class_length (nodes : List Node) (cls : List (Nat × Submission)) :
    (apply_class nodes cls).length = nodes.length + (pairwise cls).length :=
  foldl_process_pair_length (pairwise cls) nodes

theorem apply_group_length :
    ∀ (g : List (List (Nat × Submission))) (nodes : List Node),
      (apply_group nodes g).length =
        nodes.length + (g.map (fun c => (pairwise c).length)).sum := by
  intro g
  induction g with
  | nil => intro nodes; simp [apply_group]
  | cons c cs ih =>
    intro nodes
    have h1 : apply_group nodes (c :: cs) = apply_group (apply_class nodes c) cs := rfl
    rw [h1, ih (apply_class nodes c), apply_class_length]
    simp only [List.map_cons, List.sum_cons]
    omega

theorem apply_group_eq_of_length_eq :
    ∀ (g : List (List (Nat × Submission))) (nodes : List Node),
      (apply_group nodes g).length = nodes.length → apply_group nodes g = nodes := by
  intro g
  induction g with
  | nil => intro nodes _; rfl
  | cons c cs ih =>
    intro nodes hlen
    have h1 := apply_group_length (c :: cs) nodes
    rw [hlen] at h1
    simp only [List.map_cons, List.sum_cons] at h1
    have h2 : (pairwise c).length = 0 ∧
        ((cs.map (fun c2 => (pairwise c2).length)).sum = 0) := by omega
    have hcls : pairwise c = [] := List.length_eq_zero.mp h2.1
    have hac : apply_class nodes c = nodes := by
      unfold apply_class
      rw [hcls]
      rfl
    show apply_group (apply_class nodes c) cs = nodes
    rw [hac]
    apply ih
    rw [apply_group_length, h2.2]
    omega

theorem run_groups_pending (nodes : List Node) (g : List (List (Nat × Submission)))
    (gs : List (List (List (Nat × Submission)))) :
    run_groups nodes true (g :: gs) = apply_group nodes g := by
  simp [run_groups]

theorem run_groups_not_pending :
    ∀ (gs : List (List (List (Nat × Submission)))) (nodes : List Node),
      run_groups nodes false gs = first_producing_apply nodes gs := by
  intro gs
  induction gs with
  | nil => intro nodes; rfl
  | cons g rest ih =>
    intro nodes
    simp only [run_groups, first_producing_apply]
    by_cases hlt : nodes.length < (apply_group nodes g).length
    · rw [if_pos (Or.inr hlt), if_pos hlt]
    · have hle : (apply_group nodes g).length = nodes.length := by
        have := apply_group_length g nodes
        omega
      have heq := apply_group_eq_of_length_eq g nodes hle
      rw [if_neg (by simp [hlt]), if_neg hlt, heq]
      exact ih nodes

/-- C6 (amended): in a non-terminal tick on a non-empty bracket, the
available endpoints are grouped by strict `(losses, wins)` class first;
when some node is still pending a winner, the loop unconditionally stops
after that first grouping (whether or not it paired anything), because
`pending_matches` was already true; only when every node has a winner does
the fallback by-losses grouping run — exactly when the first grouping
produced no new nodes — and the single descending-losses class exactly when
the second also produced none, stopping after the first grouping that
produced any new nodes. -/
theorem bracket_grouping_fallback_policy (shuffle : List Submission → List Submission)
    (subs : List Submission) (nodes0 : List Node) (max_losses : Nat)
    (h : nodes0 ≠ [])
    (hterm : nodes0.any (fun n => n.winner = none) = true ∨
      2 ≤ (available_entries nodes0 max_losses).length) :
    generate_n_elimination_bracket_online shuffle subs nodes0 max_losses =
      Except.ok (TickResult.notDone,
        if nodes0.any (fun n => n.winner = none) then
          apply_group nodes0 ((tick_groups nodes0 max_losses).headD [])
        else first_producing_apply nodes0 (tick_groups nodes0 max_losses)) := by
  have hne : nodes0.isEmpty = false := by
    cases nodes0 with
    | nil => exact absurd rfl h
    | cons x xs => rfl
  have hmain : generate_n_elimination_bracket_online shuffle subs nodes0 max_losses =
      (if (nodes0.any (fun n => n.winner = none)) = false ∧
          (available_entries nodes0 max_losses).length = 1 then
        Except.ok (TickResult.winner
          ((available_entries nodes0 max_losses).headD (0, BYE)).1, nodes0)
      else if (nodes0.any (fun n => n.winner = none)) = false ∧
          (available_entries nodes0 max_losses).length = 0 then
        Except.ok (TickResult.starved (nodes0.length - 1), nodes0)
      else Except.ok (TickResult.notDone,
        run_groups nodes0 (nodes0.any (fun n => n.winner = none))
          (tick_groups nodes0 max_losses))) := by
    unfold generate_n_elimination_bracket_online
    rw [if_neg (show ¬ (nodes0.isEmpty = true) by simp [hne])]
  have hc1 : ¬ ((nodes0.any (fun n => n.winner = none)) = false ∧
      (available_entries nodes0 max_losses).length = 1) := by
    rcases hterm with hp | ha
    · intro hc; rw [hp] at hc; exact Bool.noConfusion hc.1
    · intro hc; omega
  have hc2 : ¬ ((nodes0.any (fun n => n.winner = none)) = false ∧
      (available_entries nodes0 max_losses).length = 0) := by
    rcases hterm with hp | ha
    · intro hc; rw [hp] at hc; exact Bool.noConfusion hc.1
    · intro hc; omega
  rw [hmain, if_neg hc1, if_neg hc2]
  obtain ⟨g1, g2, g3, htg⟩ : ∃ g1 g2 g3, tick_groups nodes0 max_losses = [g1, g2, g3] :=
    ⟨_, _, _, rfl⟩
  cases hpend : nodes0.any (fun n => n.winner = none) with
  | true =>
    rw [if_pos rfl, htg, run_groups_pending]
    rfl
  | false =>
    rw [if_neg (by simp), run_groups_not_pending]

/-- A mid-tournament bracket: four decided nodes, one pending final
(`A vs D`), and four available endpoints whose `(losses, wins)` keys are
pairwise distinct — `E:(1,0)`, `C:(0,1)`, `B:(1,1)`, `F:(2,0)` — while `E`
and `B` share the losses-only key `1`. -/
def ce6_nodes : List Node :=
  [⟨[⟨1, "A", 1, "ok"⟩, ⟨2, "B", 1, "ok"⟩], [], [], [],
    some ⟨1, "A", 1, "ok"⟩, some ⟨2, "B", 1, "ok"⟩, some 4, some 3⟩,
   ⟨[⟨4, "D", 1, "ok"⟩, ⟨5, "E", 1, "ok"⟩], [], [], [],
    some ⟨4, "D", 1, "ok"⟩, some ⟨5, "E", 1, "ok"⟩, some 4, none⟩,
   ⟨[⟨3, "C", 1, "ok"⟩, ⟨6, "F", 1, "ok"⟩], [], [], [],
    some ⟨3, "C", 1, "ok"⟩, some ⟨6, "F", 1, "ok"⟩, none, some 3⟩,
   ⟨[⟨2, "B", 1, "ok"⟩, ⟨6, "F", 1, "ok"⟩], [], [0, 2], [],
    some ⟨2, "B", 1, "ok"⟩, some ⟨6, "F", 1, "ok"⟩, none, none⟩,
   ⟨[⟨1, "A", 1, "ok"⟩, ⟨4, "D", 1, "ok"⟩], [0, 1], [], [],
    none, none, none, none⟩]

/-- Counterexample for C6 as stated: on `ce6_nodes` the `(losses, wins)`
grouping pairs nothing (four singleton classes), yet because the `A vs D`
final is still pending the tick stops after that first grouping and
creates no node (the bracket stays at 5 nodes).  Had the loop proceeded to
the by-losses fallback — as the claim says it does exactly when the first
grouping produced no new nodes — the class `{E, B}` would have paired and
grown the bracket to 6 nodes. -/
theorem bracket_grouping_fallback_counterexample :
    generate_n_elimination_bracket_online (fun l => l) [] ce6_nodes 3 =
      Except.ok (TickResult.notDone, ce6_nodes) ∧
    ce6_nodes.length = 5 ∧
    (first_producing_apply ce6_nodes (tick_groups ce6_nodes 3)).length = 6 := by
  exact ⟨rfl, rfl, rfl⟩

/-- Witness for the amended C6: on the same pending-final bracket the tick
equals exactly one application of the first grouping. -/
theorem bracket_grouping_fallback_policy_witness :
    generate_n_elimination_bracket_online (fun l => l) [] ce6_nodes 3 =
      Except.ok (TickResult.notDone,
        if ce6_nodes.any (fun n => n.winner = none) then
          apply_group ce6_nodes ((tick_groups ce6_nodes 3).headD [])
        else first_producing_apply ce6_nodes (tick_groups ce6_nodes 3)) :=
  bracket_grouping_fallback_policy (fun l => l) [] ce6_nodes 3
    (by decide) (Or.inl (by decide))

theorem pairwise_mem {α : Type} :
    ∀ (l : List α) (p : α × α), p ∈ pairwise l → p.1 ∈ l ∧ p.2 ∈ l
  | [], p, hp => by simp [pairwise] at hp
  | [a], p, hp => by simp [pairwise] at hp
  | a :: b :: rest, p, hp => by
    simp only [pairwise, List.mem_cons] at hp
    rcases hp with hp | hp
    · rw [hp]
      exact ⟨List.mem_cons_self _ _, List.mem_cons_of_mem _ (List.mem_cons_self _ _)⟩
    · have := pairwise_mem rest p hp
      exact ⟨List.mem_cons_of_mem _ (List.mem_cons_of_mem _ this.1),
        List.mem_cons_of_mem _ (List.mem_cons_of_mem _ this.2)⟩

theorem group_insert_sub {κ α : Type} [DecidableEq κ] (k : κ) (a : α) :
    ∀ (acc : List (κ × List α)) (kc : κ × List α), kc ∈ group_insert k a acc →
      ∀ x ∈ kc.2, x = a ∨ ∃ kc2 ∈ acc, x ∈ kc2.2 := by
  intro acc
  induction acc with
  | nil =>
    intro kc hkc x hx
    simp only [group_insert, List.mem_singleton] at hkc
    rw [hkc] at hx
    simp only [List.mem_singleton] at hx
    exact Or.inl hx
  | cons hd rest ih =>
    intro kc hkc x hx
    obtain ⟨k2, xs⟩ := hd
    simp only [group_insert] at hkc
    by_cases hk : k2 = k
    · rw [if_pos hk] at hkc
      rcases List.mem_cons.mp hkc with h | h
      · rw [h] at hx
        simp only [List.mem_append, List.mem_singleton] at hx
        rcases hx with hx | hx
        · exact Or.inr ⟨(k2, xs), List.mem_cons_self _ _, hx⟩
        · exact Or.inl hx
      · exact Or.inr ⟨kc, List.mem_cons_of_mem _ h, hx⟩
    · rw [if_neg hk] at hkc
      rcases List.mem_cons.mp hkc with h | h
      · rw [h] at hx
        exact Or.inr ⟨(k2, xs), List.mem_cons_self _ _, hx⟩
      · rcases ih kc h x hx with h2 | ⟨kc2, hkc2, hx2⟩
        · exact Or.inl h2
        · exact Or.inr ⟨kc2, List.mem_cons_of_mem _ hkc2, hx2⟩

theorem group_by_key_mem {κ α : Type} [DecidableEq κ] (key : α → κ) :
    ∀ (l : List α) (acc : List (κ × List α)) (kc : κ × List α),
      kc ∈ l.foldl (fun acc x => group_insert (key x) x acc) acc →
      ∀ x ∈ kc.2, (∃ kc2 ∈ acc, x ∈ kc2.2) ∨ x ∈ l := by
  intro l
  induction l with
  | nil =>
    intro acc kc hkc x hx
    exact Or.inl ⟨kc, hkc, hx⟩
  | cons a as ih =>
    intro acc kc hkc x hx
    rcases ih (group_insert (key a) a acc) kc hkc x hx with ⟨kc2, hkc2, hx2⟩ | h
    · rcases group_insert_sub (key a) a acc kc2 hkc2 x hx2 with h2 | ⟨kc3, hkc3, hx3⟩
      · exact Or.inr (h2 ▸ List.mem_cons_self _ _)
      · exact Or.inl ⟨kc3, hkc3, hx3⟩
    · exact Or.inr (List.mem_cons_of_mem _ h)

theorem insert_by_ge_mem {α β : Type} [LinearOrder β] (key : α → β) (a : α) :
    ∀ (l : List α) (x : α), x ∈ insert_by_ge key a l → x = a ∨ x ∈ l := by
  intro l
  induction l with
  | nil =>
    intro x hx
    simp only [insert_by_ge, List.mem_singleton] at hx
    exact Or.inl hx
  | cons y ys ih =>
    intro x hx
    simp only [insert_by_ge] at hx
    by_cases hc : key y ≤ key a
    · rw [if_pos hc] at hx
      rcases List.mem_cons.mp hx with h | h
      · exact Or.inl h
      · exact Or.inr h
    · rw [if_neg hc] at hx
      rcases List.mem_cons.mp hx with h | h
      · exact Or.inr (h ▸ List.mem_cons_self _ _)
      · rcases ih x h with h2 | h2
        · exact Or.inl h2
        · exact Or.inr (List.mem_cons_of_mem _ h2)

theorem sort_desc_by_mem {α β : Type} [LinearOrder β] (key : α → β) :
    ∀ (l : List α) (x : α), x ∈ sort_desc_by key l → x ∈ l := by
  intro l
  induction l with
  | nil => intro x hx; exact hx
  | cons y ys ih =>
    intro x hx
    simp only [sort_desc_by, List.foldr_cons] at hx
    rcases insert_by_ge_mem key y (ys.foldr (insert_by_ge key) []) x hx with h | h
    · exact h ▸ List.mem_cons_self _ _
    · exact List.mem_cons_of_mem _ (ih x h)

theorem available_entries_mem {nodes : List Node} {max_losses : Nat} {i : Nat}
    {w : Submission} (h : (i, w) ∈ available_entries nodes max_losses) :
    i < nodes.length ∧ ∃ nd, nodes.get? i = some nd ∧
      ((nd.winner = some w ∧ nd.winner_child = none) ∨
       (nd.loser = some w ∧ nd.loser_child = none ∧ count_losses nodes w < max_losses)) := by
  simp only [available_entries, List.mem_flatMap, List.mem_range] at h
  obtain ⟨i2, hi2, hmem⟩ := h
  cases hnd : nodes.get? i2 with
  | none => rw [hnd] at hmem; simp at hmem
  | some nd =>
    rw [hnd] at hmem
    rw [List.mem_append] at hmem
    rcases hmem with hm | hm
    · cases hw : nd.winner with
      | none => rw [hw] at hm; cases hwc : nd.winner_child <;> rw [hwc] at hm <;> simp at hm
      | some w2 =>
        rw [hw] at hm
        cases hwc : nd.winner_child with
        | some c => rw [hwc] at hm; simp at hm
        | none =>
          rw [hwc] at hm
          simp only [List.mem_singleton, Prod.mk.injEq] at hm
          obtain ⟨hi, hww⟩ := hm
          subst hi
          subst hww
          exact ⟨hi2, nd, hnd, Or.inl ⟨hw, hwc⟩⟩
    · cases hl : nd.loser with
      | none => rw [hl] at hm; cases hlc : nd.loser_child <;> rw [hlc] at hm <;> simp at hm
      | some l =>
        rw [hl] at hm
        cases hlc : nd.loser_child with
        | some c => rw [hlc] at hm; simp at hm
        | none =>
          rw [hlc] at hm
          have hm2 : (i, w) ∈
              (if count_losses nodes l < max_losses then [(i2, l)] else []) := hm
          by_cases hcnt : count_losses nodes l < max_losses
          · rw [if_pos hcnt] at hm2
            simp only [List.mem_singleton, Prod.mk.injEq] at hm2
            obtain ⟨hi, hww⟩ := hm2
            subst hi
            subst hww
            exact ⟨hi2, nd, hnd, Or.inr ⟨hl, hlc, hcnt⟩⟩
          · rw [if_neg hcnt] at hm2
            simp at hm2

/-- The loser-availability conditions for node `f` relative to the state
the current tick started from. -/
def loser_good (nodes1 : List Node) (max_losses : Nat) (f : Nat) : Prop :=
  ∃ ndf lf, nodes1.get? f = some ndf ∧ ndf.loser = some lf ∧
    count_losses nodes1 lf < max_losses ∧ ndf.loser_child = none

/-- Invariant carried through the bracket-growth folds of one tick,
relative to the tick's starting node list `nodes1`: original nodes keep
their winner and loser; a node whose loser was not available (too many
losses, or `loser_child` already set) keeps its `loser_child`; and every
node appended during the tick draws its inverted feeders only from
loser-available nodes. -/
def tick_inv (nodes1 : List Node) (max_losses : Nat) (cur : List Node) : Prop :=
  nodes1.length ≤ cur.length ∧
  (∀ i nd0, nodes1.get? i = some nd0 → ∃ nd, cur.get? i = some nd ∧
    nd.winner = nd0.winner ∧ nd.loser = nd0.loser ∧
    (∀ l, nd0.loser = some l →
      (max_losses ≤ count_losses nodes1 l ∨ nd0.loser_child ≠ none) →
      nd.loser_child = nd0.loser_child)) ∧
  (∀ j nd, nodes1.length ≤ j → cur.get? j = some nd →
    ∀ f ∈ nd.inverted_feeders, loser_good nodes1 max_losses f)

theorem tick_inv_init (nodes1 : List Node) (max_losses : Nat) :
    tick_inv nodes1 max_losses nodes1 := by
  refine ⟨le_refl _, ?_, ?_⟩
  · intro i nd0 h
    exact ⟨nd0, h, rfl, rfl, fun l _ _ => rfl⟩
  · intro j nd hj hget
    rw [List.get?_len_le hj] at hget
    exact Option.noConfusion hget

theorem process_entry_inv (nodes1 : List Node) (max_losses : Nat) (new_idx : Nat)
    (ns : List Node) (fs ifs : List Nat) (e : Nat × Submission)
    (he : e ∈ available_entries nodes1 max_losses)
    (hinv : tick_inv nodes1 max_losses ns)
    (hifs : ∀ f ∈ ifs, loser_good nodes1 max_losses f) :
    tick_inv nodes1 max_losses (process_entry new_idx (ns, fs, ifs) e).1 ∧
    (process_entry new_idx (ns, fs, ifs) e).1.length = ns.length ∧
    (∀ f ∈ (process_entry new_idx (ns, fs, ifs) e).2.2,
      loser_good nodes1 max_losses f) := by
  obtain ⟨i, w⟩ := e
  obtain ⟨hilt, nd0, hnd0, hdisj⟩ := available_entries_mem he
  obtain ⟨hlen, hclause1, hclause2⟩ := hinv
  obtain ⟨ndc, hndc, hwin, hlos, hlc⟩ := hclause1 i nd0 hnd0
  have hred : process_entry new_idx (ns, fs, ifs) (i, w) =
      (if ndc.winner = some w then
        (ns.set i { ndc with winner_child := some new_idx }, fs ++ [i], ifs)
      else if ndc.loser = some w then
        (ns.set i { ndc with loser_child := some new_idx }, fs, ifs ++ [i])
      else (ns, fs, ifs)) := by
    show (match ns.get? i with
      | none => (ns, fs, ifs)
      | some nd =>
        if nd.winner = some w then
          (ns.set i { nd with winner_child := some new_idx }, fs ++ [i], ifs)
        else if nd.loser = some w then
          (ns.set i { nd with loser_child := some new_idx }, fs, ifs ++ [i])
        else (ns, fs, ifs)) = _
    rw [hndc]
  rw [hred]
  by_cases hw1 : ndc.winner = some w
  · rw [if_pos hw1]
    refine ⟨⟨?_, ?_, ?_⟩, by simp [List.length_set], hifs⟩
    · rw [List.length_set]; exact hlen
    · intro i2 nd02 hnd02
      by_cases hii : i2 = i
      · subst hii
        rw [hnd02] at hnd0
        injection hnd0 with hnd0e
        subst hnd0e
        refine ⟨{ ndc with winner_child := some new_idx }, ?_, hwin, hlos, ?_⟩
        · rw [List.get?_set_eq, hndc]
          rfl
        · intro l hl hbad
          exact hlc l hl hbad
      · obtain ⟨nd2, hnd2, h1, h2, h3⟩ := hclause1 i2 nd02 hnd02
        exact ⟨nd2, by rw [List.get?_set_ne _ _ (fun hce => hii hce.symm)]; exact hnd2,
          h1, h2, h3⟩
    · intro j nd hj hget
      rw [List.get?_set_ne _ _ (fun hce => by omega)] at hget
      exact hclause2 j nd hj hget
  · rw [if_neg hw1]
    have hlcase : nd0.loser = some w ∧ nd0.loser_child = none ∧
        count_losses nodes1 w < max_losses := by
      rcases hdisj with ⟨hd1, _⟩ | hd
      · exact absurd (hwin.trans hd1) hw1
      · exact hd
    have hl1 : ndc.loser = some w := hlos.trans hlcase.1
    rw [if_pos hl1]
    refine ⟨⟨?_, ?_, ?_⟩, by simp [List.length_set], ?_⟩
    · rw [List.length_set]; exact hlen
    · intro i2 nd02 hnd02
      by_cases hii : i2 = i
      · subst hii
        rw [hnd02] at hnd0
        injection hnd0 with hnd0e
        subst hnd0e
        refine ⟨{ ndc with loser_child := some new_idx }, ?_, hwin, hlos, ?_⟩
        · rw [List.get?_set_eq, hndc]
          rfl
        · intro l hl hbad
          rw [hlcase.1] at hl
          injection hl with hle
          subst hle
          rcases hbad with hbad | hbad
          · omega
          · exact absurd hlcase.2.1 hbad
      · obtain ⟨nd2, hnd2, h1, h2, h3⟩ := hclause1 i2 nd02 hnd02
        exact ⟨nd2, by rw [List.get?_set_ne _ _ (fun hce => hii hce.symm)]; exact hnd2,
          h1, h2, h3⟩
    · intro j nd hj hget
      rw [List.get?_set_ne _ _ (fun hce => by omega)] at hget
      exact hclause2 j nd hj hget
    · intro f hf
      rw [List.mem_append, List.mem_singleton] at hf
      rcases hf with hf | hf
      · exact hifs f hf
      · subst hf
        exact ⟨nd0, w, hnd0, hlcase.1, hlcase.2.2, hlcase.2.1⟩

theorem process_pair_inv (nodes1 : List Node) (max_losses : Nat) (cur : List Node)
    (p : (Nat × Submission) × (Nat × Submission))
    (hp1 : p.1 ∈ available_entries nodes1 max_losses)
    (hp2 : p.2 ∈ available_entries nodes1 max_losses)
    (hinv : tick_inv nodes1 max_losses cur) :
    tick_inv nodes1 max_losses (process_pair cur p) := by
  obtain ⟨h1inv, h1len, h1ifs⟩ := process_entry_inv nodes1 max_losses cur.length cur [] []
    p.1 hp1 hinv (by intro f hf; simp at hf)
  rcases hsurj : process_entry cur.length (cur, [], []) p.1 with ⟨ns1, fs1, ifs1⟩
  rw [hsurj] at h1inv h1len h1ifs
  have h1inv2 : tick_inv nodes1 max_losses ns1 := h1inv
  have h1ifs2 : ∀ f ∈ ifs1, loser_good nodes1 max_losses f := h1ifs
  obtain ⟨h2inv, h2len, h2ifs⟩ := process_entry_inv nodes1 max_losses cur.length ns1 fs1 ifs1
    p.2 hp2 h1inv2 h1ifs2
  rcases hsurj2 : process_entry cur.length (ns1, fs1, ifs1) p.2 with ⟨ns2, fs2, ifs2⟩
  rw [hsurj2] at h2inv h2len h2ifs
  have h2inv2 : tick_inv nodes1 max_losses ns2 := h2inv
  have h2ifs2 : ∀ f ∈ ifs2, loser_good nodes1 max_losses f := h2ifs
  have hpp : process_pair cur p =
      ns2 ++ [{ empty_node with feeders := fs2, inverted_feeders := ifs2 }] := by
    unfold process_pair
    have hfold : [p.1, p.2].foldl (process_entry cur.length) (cur, [], []) =
        (ns2, fs2, ifs2) := by
      show process_entry cur.length (process_entry cur.length (cur, [], []) p.1) p.2 = _
      rw [hsurj, hsurj2]
    rw [hfold]
  rw [hpp]
  obtain ⟨hil, hic1, hic2⟩ := h2inv2
  refine ⟨?_, ?_, ?_⟩
  · rw [List.length_append]
    simp only [List.length_singleton]
    omega
  · intro i nd0 h0
    obtain ⟨nd, hnd, ha, hb, hc⟩ := hic1 i nd0 h0
    have hilt : i < ns2.length := by
      rcases List.get?_eq_some.mp hnd with ⟨hlt, _⟩
      exact hlt
    exact ⟨nd, by rw [List.get?_append hilt]; exact hnd, ha, hb, hc⟩
  · intro j nd hj hget
    by_cases hjl : j < ns2.length
    · rw [List.get?_append hjl] at hget
      exact hic2 j nd hj hget
    · by_cases hje : j = ns2.length
      · subst hje
        rw [List.get?_concat_length] at hget
        injection hget with hh
        rw [← hh]
        intro f hf
        exact h2ifs2 f hf
      · rw [List.get?_len_le (by simp only [List.length_append, List.length_singleton]; omega)]
          at hget
        exact Option.noConfusion hget

theorem foldl_pairs_inv (nodes1 : List Node) (max_losses : Nat) :
    ∀ (ps : List ((Nat × Submission) × (Nat × Submission))) (cur : List Node),
      (∀ p ∈ ps, p.1 ∈ available_entries nodes1 max_losses ∧
        p.2 ∈ available_entries nodes1 max_losses) →
      tick_inv nodes1 max_losses cur →
      tick_inv nodes1 max_losses (ps.foldl process_pair cur) := by
  intro ps
  induction ps with
  | nil => intro cur _ hinv; exact hinv
  | cons p rest ih =>
    intro cur hmem hinv
    rw [List.foldl_cons]
    exact ih (process_pair cur p)
      (fun q hq => hmem q (List.mem_cons_of_mem _ hq))
      (process_pair_inv nodes1 max_losses cur p
        (hmem p (List.mem_cons_self _ _)).1 (hmem p (List.mem_cons_self _ _)).2 hinv)

theorem apply_class_inv (nodes1 : List Node) (max_losses : Nat) (cur : List Node)
    (cls : List (Nat × Submission))
    (hmem : ∀ x ∈ cls, x ∈ available_entries nodes1 max_losses)
    (hinv : tick_inv nodes1 max_losses cur) :
    tick_inv nodes1 max_losses (apply_class cur cls) := by
  apply foldl_pairs_inv nodes1 max_losses (pairwise cls) cur
  · intro p hp
    have := pairwise_mem cls p hp
    exact ⟨hmem p.1 this.1, hmem p.2 this.2⟩
  · exact hinv

theorem apply_group_inv (nodes1 : List Node) (max_losses : Nat) :
    ∀ (g : List (List (Nat × Submission))) (cur : List Node),
      (∀ cls ∈ g, ∀ x ∈ cls, x ∈ available_entries nodes1 max_losses) →
      tick_inv nodes1 max_losses cur →
      tick_inv nodes1 max_losses (apply_group cur g) := by
  intro g
  induction g with
  | nil => intro cur _ hinv; exact hinv
  | cons cls rest ih =>
    intro cur hmem hinv
    show tick_inv nodes1 max_losses (apply_group (apply_class cur cls) rest)
    exact ih (apply_class cur cls)
      (fun c hc => hmem c (List.mem_cons_of_mem _ hc))
      (apply_class_inv nodes1 max_losses cur cls (hmem cls (List.mem_cons_self _ _)) hinv)

theorem run_groups_inv (nodes1 : List Node) (max_losses : Nat) :
    ∀ (gs : List (List (List (Nat × Submission)))) (pending : Bool) (cur : List Node),
      (∀ g ∈ gs, ∀ cls ∈ g, ∀ x ∈ cls, x ∈ available_entries nodes1 max_losses) →
      tick_inv nodes1 max_losses cur →
      tick_inv nodes1 max_losses (run_groups cur pending gs) := by
  intro gs
  induction gs with
  | nil => intro pending cur _ hinv; exact hinv
  | cons g rest ih =>
    intro pending cur hmem hinv
    have hg := apply_group_inv nodes1 max_losses g cur (hmem g (List.mem_cons_self _ _)) hinv
    simp only [run_groups]
    by_cases hc : (pending = true) ∨ cur.length < (apply_group cur g).length
    · rw [if_pos hc]
      exact hg
    · rw [if_neg hc]
      exact ih pending (apply_group cur g)
        (fun g2 hg2 => hmem g2 (List.mem_cons_of_mem _ hg2)) hg

theorem tick_groups_subset (nodes1 : List Node) (max_losses : Nat) :
    ∀ g ∈ tick_groups nodes1 max_losses, ∀ cls ∈ g, ∀ x ∈ cls,
      x ∈ available_entries nodes1 max_losses := by
  intro g hg cls hcls x hx
  simp only [tick_groups, List.mem_cons, List.mem_singleton] at hg
  rcases hg with hg | hg | hg | hg
  · rw [hg] at hcls
    simp only [List.mem_map] at hcls
    obtain ⟨kc, hkc, hcls2⟩ := hcls
    rw [← hcls2] at hx
    simp only [group_by_key] at hkc
    rcases group_by_key_mem (fun e => (count_losses nodes1 e.2, count_wins nodes1 e.2))
        (available_entries nodes1 max_losses) [] kc hkc x hx with ⟨kc2, hkc2, _⟩ | h
    · simp at hkc2
    · exact h
  · rw [hg] at hcls
    simp only [List.mem_map] at hcls
    obtain ⟨kc, hkc, hcls2⟩ := hcls
    rw [← hcls2] at hx
    simp only [group_by_key] at hkc
    rcases group_by_key_mem (fun e => count_losses nodes1 e.2)
        (available_entries nodes1 max_losses) [] kc hkc x hx with ⟨kc2, hkc2, _⟩ | h
    · simp at hkc2
    · exact h
  · rw [hg] at hcls
    simp only [List.mem_singleton] at hcls
    rw [hcls] at hx
    exact sort_desc_by_mem _ (available_entries nodes1 max_losses) x hx
  · exact absurd hg (by simp)

/-- C3: in any tick of `generate_n_elimination_bracket_online` on an
already-initialised bracket, a node whose loser has accumulated
`max_losses` or more total losses, or whose `loser_child` is already set,
keeps its `loser_child` unchanged (its loser is never made available), and
every node created during the tick draws each inverted-feeder edge from a
node whose loser had strictly fewer than `max_losses` losses and no
`loser_child` when the tick began — so no submission with
`losses ≥ N_ELIMINATION` is the source of a new feeder edge created after
that loss was observed. -/
theorem n_loss_elimination_invariant (shuffle : List Submission → List Submission)
    (subs : List Submission) (nodes0 : List Node) (max_losses : Nat)
    (h : nodes0 ≠ []) (r : TickResult) (nodes2 : List Node)
    (hrun : generate_n_elimination_bracket_online shuffle subs nodes0 max_losses =
      Except.ok (r, nodes2)) :
    (∀ i nd l, nodes0.get? i = some nd → nd.loser = some l →
      (max_losses ≤ count_losses nodes0 l ∨ nd.loser_child ≠ none) →
      ∃ nd2, nodes2.get? i = some nd2 ∧ nd2.loser_child = nd.loser_child) ∧
    (∀ j nd2, nodes0.length ≤ j → nodes2.get? j = some nd2 →
      ∀ f ∈ nd2.inverted_feeders, ∃ ndf lf, nodes0.get? f = some ndf ∧
        ndf.loser = some lf ∧ count_losses nodes0 lf < max_losses ∧
        ndf.loser_child = none) := by
  have hne : nodes0.isEmpty = false := by
    cases nodes0 with
    | nil => exact absurd rfl h
    | cons x xs => rfl
  have hmain : generate_n_elimination_bracket_online shuffle subs nodes0 max_losses =
      (if (nodes0.any (fun n => n.winner = none)) = false ∧
          (available_entries nodes0 max_losses).length = 1 then
        Except.ok (TickResult.winner
          ((available_entries nodes0 max_losses).headD (0, BYE)).1, nodes0)
      else if (nodes0.any (fun n => n.winner = none)) = false ∧
          (available_entries nodes0 max_losses).length = 0 then
        Except.ok (TickResult.starved (nodes0.length - 1), nodes0)
      else Except.ok (TickResult.notDone,
        run_groups nodes0 (nodes0.any (fun n => n.winner = none))
          (tick_groups nodes0 max_losses))) := by
    unfold generate_n_elimination_bracket_online
    rw [if_neg (show ¬ (nodes0.isEmpty = true) by simp [hne])]
  rw [hmain] at hrun
  have hfromident : nodes2 = nodes0 ∨
      tick_inv nodes0 max_losses nodes2 := by
    by_cases hc1 : (nodes0.any (fun n => n.winner = none)) = false ∧
        (available_entries nodes0 max_losses).length = 1
    · rw [if_pos hc1] at hrun
      injection hrun with hrun2
      exact Or.inl (congrArg Prod.snd hrun2).symm
    · rw [if_neg hc1] at hrun
      by_cases hc2 : (nodes0.any (fun n => n.winner = none)) = false ∧
          (available_entries nodes0 max_losses).length = 0
      · rw [if_pos hc2] at hrun
        injection hrun with hrun2
        exact Or.inl (congrArg Prod.snd hrun2).symm
      · rw [if_neg hc2] at hrun
        injection hrun with hrun2
        have hn2 : nodes2 = run_groups nodes0 (nodes0.any (fun n => n.winner = none))
            (tick_groups nodes0 max_losses) := (congrArg Prod.snd hrun2).symm
        rw [hn2]
        exact Or.inr (run_groups_inv nodes0 max_losses (tick_groups nodes0 max_losses)
          (nodes0.any (fun n => n.winner = none)) nodes0
          (tick_groups_subset nodes0 max_losses) (tick_inv_init nodes0 max_losses))
  rcases hfromident with heq | hinv
  · subst heq
    constructor
    · intro i nd l hi _ _
      exact ⟨nd, hi, rfl⟩
    · intro j nd2 hj hget
      rw [List.get?_len_le hj] at hget
      exact Option.noConfusion hget
  · obtain ⟨_, hc1, hc2⟩ := hinv
    constructor
    · intro i nd l hi hl hbad
      obtain ⟨nd2, hnd2, _, _, hcond⟩ := hc1 i nd hi
      exact ⟨nd2, hnd2, hcond l hl hbad⟩
    · intro j nd2 hj hget f hf
      exact hc2 j nd2 hj hget f hf

/-- Witness for C3: on the `ce6_nodes` bracket, node 0's loser already has
a `loser_child`, and the tick leaves that `loser_child` untouched. -/
theorem n_loss_elimination_invariant_witness :
    ∃ nd2, ce6_nodes.get? 0 = some nd2 ∧ nd2.loser_child = some 3 := by
  have hrun : generate_n_elimination_bracket_online (fun l => l) [] ce6_nodes 3 =
      Except.ok (TickResult.notDone, ce6_nodes) := rfl
  obtain ⟨nd2, hnd2, hlc⟩ := (n_loss_elimination_invariant (fun l => l) [] ce6_nodes 3
    (by decide) TickResult.notDone ce6_nodes hrun).1 0
    ⟨[⟨1, "A", 1, "ok"⟩, ⟨2, "B", 1, "ok"⟩], [], [], [],
      some ⟨1, "A", 1, "ok"⟩, some ⟨2, "B", 1, "ok"⟩, some 4, some 3⟩
    ⟨2, "B", 1, "ok"⟩ rfl rfl (Or.inr (by decide))
  exact ⟨nd2, hnd2, by rw [hlc]⟩

/-- Ids of all games attached anywhere in the bracket
(`[game.id for node in nodes for game in node.games]`). -/
def used_game_ids (nodes : List Node) : List Int :=
  nodes.flatMap (fun n => n.games.map (fun g => g.id))

/-- `get_unused_game(conn, left_submission, right_submission,
used_game_ids)`: finished games joined twice on `games_submissions` (so a
game matches whenever each of the two submissions appears among its rows),
excluding ids in `(-1, *used_game_ids)`, ordered by id descending, limited
to one, projected to the `(id, winner_id, log_url, status)` shape. -/
def get_unused_game (db : List DbGame) (left right : Submission) (used : List Int) :
    List Game :=
  let matching := db.filter (fun g =>
    g.status = "finished" ∧
    (left.id = g.sub1 ∨ left.id = g.sub2) ∧
    (right.id = g.sub1 ∨ right.id = g.sub2) ∧
    g.id ≠ -1 ∧ g.id ∉ used)
  ((sort_desc_by (fun g => g.id) matching).take 1).map db_game_to_game

/-- The scheduler state mutated while creating games: the games table (a
fresh-id counter stands for the SERIAL id sequence) together with the
bracket nodes — `create_or_reuse_game` reads the global `nodes` for the
already-attached game ids. -/
structure SchedState where
  db : List DbGame
  next_id : Int
  nodes : List Node
  deriving Repr

/-- `create_queued_game(conn, left_submission, right_submission)`: insert a
queued games row plus its two `games_submissions` rows (left first) and
return the fresh row. -/
def create_queued_game (st : SchedState) (left right : Submission) :
    Game × SchedState :=
  ({ id := st.next_id, status := "queued", winner_id := none, log_url := "" },
   { st with
      db := st.db ++
        [{ id := st.next_id, status := "queued", winner_id := none,
           log_url := "", sub1 := left.id, sub2 := right.id }],
      next_id := st.next_id + 1 })

/-- `create_or_reuse_game(conn, left, right)`: with `REUSE_OLD_GAMES`, take
the newest finished head-to-head game whose id is not attached anywhere in
the bracket; otherwise (or when none exists) enqueue a fresh game. -/
def create_or_reuse_game (reuse : Bool) (st : SchedState) (left right : Submission) :
    Game × SchedState :=
  if reuse then
    match get_unused_game st.db left right (used_game_ids st.nodes) with
    | g :: _ => (g, st)
    | [] => create_queued_game st left right
  else create_queued_game st left right

/-- The `finished_or_queued_games` filter of `create_needed_games`. -/
def counted_games (games : List Game) : List Game :=
  games.filter (fun g =>
    g.status = "finished" ∨ g.status = "queued" ∨ g.status = "playing")

/-- The `for i in range(len(finished_or_queued_games), BEST_OF):` loop for
the node at `idx`: on odd `i` the submission order is swapped, then a game
is created or reused and appended to the node (so later iterations see it
among the attached ids). -/
def create_games_loop (reuse : Bool) (idx : Nat) : List Nat → SchedState → SchedState
  | [], st => st
  | i :: rest, st =>
    match st.nodes.get? idx with
    | none => st
    | some nd =>
      match nd.submissions with
      | [s0, s1] =>
        let lr := if i % 2 = 1 then (s1, s0) else (s0, s1)
        match create_or_reuse_game reuse st lr.1 lr.2 with
        | (game, st2) =>
          create_games_loop reuse idx rest
            { st2 with
              nodes := st2.nodes.set idx { nd with games := nd.games ++ [game] } }
      | _ => st

/-- `create_needed_games(conn, levels)` for the single level `nodes`: every
node with no declared winner, exactly two submissions and no BYE gets
games created until `BEST_OF` finished/queued/playing games are
attached. -/
def create_needed_games (best_of : Nat) (reuse : Bool) (st : SchedState) : SchedState :=
  (List.range st.nodes.length).foldl (fun st2 idx =>
    match st2.nodes.get? idx with
    | none => st2
    | some nd =>
      if nd.winner = none ∧ nd.submissions.length = 2 then
        if BYE ∈ nd.submissions then st2
        else create_games_loop reuse idx
          (List.range' (counted_games nd.games).length
            (best_of - (counted_games nd.games).length)) st2
      else st2) st

/-- A game returned by `get_unused_game` is the projection of a finished
row of the games table that contains both submissions and whose id is not
among the used ids. -/
theorem get_unused_game_head (db : List DbGame) (l r : Submission) (used : List Int)
    (g : Game) (gs : List Game)
    (h : get_unused_game db l r used = g :: gs) :
    ∃ row, row ∈ db ∧ row.status = "finished" ∧
      (l.id = row.sub1 ∨ l.id = row.sub2) ∧
      (r.id = row.sub1 ∨ r.id = row.sub2) ∧
      row.id ∉ used ∧ g = db_game_to_game row := by
  have hg : g ∈ get_unused_game db l r used := by
    rw [h]; exact List.mem_cons_self _ _
  simp only [get_unused_game, List.mem_map] at hg
  obtain ⟨row, hrow, hgeq⟩ := hg
  have hrow2 := sort_desc_by_mem (fun g : DbGame => g.id) _ row
    (List.mem_of_mem_take hrow)
  simp only [List.mem_filter, decide_eq_true_eq] at hrow2
  obtain ⟨hmem, hcond⟩ := hrow2
  exact ⟨row, hmem, hcond.1, hcond.2.1, hcond.2.2.1, hcond.2.2.2.2, hgeq.symm⟩

/-- One call of `create_or_reuse_game` on a single-node bracket: either a
fresh queued row is inserted and returned, or (reuse path) a finished
head-to-head row of the existing table is returned with the state
untouched. -/
theorem create_step_spec (reuse : Bool) (db : List DbGame) (nid : Int)
    (nd0 : Node) (left right : Submission) :
    ∃ game st2,
      create_or_reuse_game reuse ⟨db, nid, [nd0]⟩ left right = (game, st2) ∧
      st2.nodes = [nd0] ∧
      ((game = { id := nid, status := "queued", winner_id := none, log_url := "" } ∧
        st2.db = db ++ [{ id := nid, status := "queued", winner_id := none,
                          log_url := "", sub1 := left.id, sub2 := right.id }] ∧
        st2.next_id = nid + 1) ∨
       (game.status = "finished" ∧ st2.db = db ∧
        ∃ row, row ∈ db ∧ row.status = "finished" ∧
          (left.id = row.sub1 ∨ left.id = row.sub2) ∧
          (right.id = row.sub1 ∨ right.id = row.sub2) ∧
          game = db_game_to_game row)) := by
  cases reuse with
  | false =>
    exact ⟨_, _, rfl, rfl, Or.inl ⟨rfl, rfl, rfl⟩⟩
  | true =>
    have h1 : create_or_reuse_game true ⟨db, nid, [nd0]⟩ left right =
        (match get_unused_game db left right (used_game_ids [nd0]) with
         | g :: _ => (g, (⟨db, nid, [nd0]⟩ : SchedState))
         | [] => create_queued_game ⟨db, nid, [nd0]⟩ left right) := rfl
    cases hg : get_unused_game db left right (used_game_ids [nd0]) with
    | nil =>
      rw [hg] at h1
      exact ⟨_, _, h1, rfl, Or.inl ⟨rfl, rfl, rfl⟩⟩
    | cons g rest =>
      rw [hg] at h1
      obtain ⟨row, hmem, hstat, hl, hr, hnotin, hgeq⟩ :=
        get_unused_game_head db left right (used_game_ids [nd0]) g rest hg
      refine ⟨g, _, h1, rfl, Or.inr ⟨?_, rfl, row, hmem, hstat, hl, hr, hgeq⟩⟩
      rw [hgeq]; exact hstat

/-- The per-node game-creation loop on a single-node bracket appends one
game per loop index: fresh games are queued rows whose submission order
alternates with the index parity, reused games are projections of finished
head-to-head rows already in the table, and exactly the fresh games extend
the games table (all with status queued). -/
theorem create_games_loop_spec (reuse : Bool) (a b : Submission) :
    ∀ (k j : Nat) (db : List DbGame) (nid : Int) (nd : Node),
      nd.submissions = [a, b] →
      ∃ app newRows nid2,
        create_games_loop reuse 0 (List.range' j k) ⟨db, nid, [nd]⟩ =
          ⟨db ++ newRows, nid2, [{ nd with games := nd.games ++ app }]⟩ ∧
        app.length = k ∧
        (∀ r, r ∈ newRows → r.status = "queued") ∧
        newRows.length = (app.filter (fun g => g.status = "queued")).length ∧
        (∀ g, g ∈ app → g.status = "queued" ∨ g.status = "finished") ∧
        (∀ m g, app.get? m = some g →
          (g.status = "queued" ∧
            ∃ row, row ∈ newRows ∧ row.id = g.id ∧
              row.sub1 = (if (j + m) % 2 = 1 then b.id else a.id) ∧
              row.sub2 = (if (j + m) % 2 = 1 then a.id else b.id)) ∨
          (g.status = "finished" ∧
            ∃ row, row ∈ db ∧ row.status = "finished" ∧
              (a.id = row.sub1 ∨ a.id = row.sub2) ∧
              (b.id = row.sub1 ∨ b.id = row.sub2) ∧
              g = db_game_to_game row)) := by
  intro k
  induction k with
  | zero =>
    intro j db nid nd hsubs
    refine ⟨[], [], nid, ?_, rfl, ?_, rfl, ?_, ?_⟩
    · show (⟨db, nid, [nd]⟩ : SchedState) =
        ⟨db ++ [], nid, [{ nd with games := nd.games ++ [] }]⟩
      rw [List.append_nil, List.append_nil]
    · intro r hr; cases hr
    · intro g hg; cases hg
    · intro m g hm; simp at hm
  | succ k ih =>
    intro j db nid nd hsubs
    obtain ⟨subs, fs, ifs, gs, w, l, wc, lc⟩ := nd
    have hsubs2 : subs = [a, b] := hsubs
    subst hsubs2
    have hstep : create_games_loop reuse 0 (List.range' j (k + 1))
        ⟨db, nid, [Node.mk [a, b] fs ifs gs w l wc lc]⟩ =
        (match create_or_reuse_game reuse
            ⟨db, nid, [Node.mk [a, b] fs ifs gs w l wc lc]⟩
            (if j % 2 = 1 then (b, a) else (a, b)).1
            (if j % 2 = 1 then (b, a) else (a, b)).2 with
         | (game, st2) => create_games_loop reuse 0 (List.range' (j + 1) k)
             { st2 with
               nodes := st2.nodes.set 0
                   (Node.mk [a, b] fs ifs (gs ++ [game]) w l wc lc) }) := rfl
    have hfst : (if j % 2 = 1 then (b, a) else (a, b)).1 =
        if j % 2 = 1 then b else a := by
      by_cases h : j % 2 = 1 <;> simp [h]
    have hsnd : (if j % 2 = 1 then (b, a) else (a, b)).2 =
        if j % 2 = 1 then a else b := by
      by_cases h : j % 2 = 1 <;> simp [h]
    rw [hfst, hsnd] at hstep
    obtain ⟨game, st2, hcr, hnodes2, hcase⟩ :=
      create_step_spec reuse db nid (Node.mk [a, b] fs ifs gs w l wc lc)
        (if j % 2 = 1 then b else a) (if j % 2 = 1 then a else b)
    obtain ⟨db2, nidX, nodes2⟩ := st2
    have hnodes3 : nodes2 = [Node.mk [a, b] fs ifs gs w l wc lc] := hnodes2
    subst hnodes3
    rw [hcr] at hstep
    have hstep2 : create_games_loop reuse 0 (List.range' j (k + 1))
        ⟨db, nid, [Node.mk [a, b] fs ifs gs w l wc lc]⟩ =
        create_games_loop reuse 0 (List.range' (j + 1) k)
          ⟨db2, nidX, [Node.mk [a, b] fs ifs (gs ++ [game]) w l wc lc]⟩ := hstep
    obtain ⟨app, newRows, nid2, hrun, hlen, hq, hcnt, hstat, hclause⟩ :=
      ih (j + 1) db2 nidX (Node.mk [a, b] fs ifs (gs ++ [game]) w l wc lc) rfl
    rw [hrun] at hstep2
    rcases hcase with ⟨hgame, hdb2, hnidX⟩ | ⟨hgstat, hdb2, row0, hr0mem, hr0stat,
        hr0l, hr0r, hgrow0⟩
    · -- fresh queued game inserted
      have hdb2b : db2 = db ++
          [{ id := nid, status := "queued", winner_id := none, log_url := "",
             sub1 := (if j % 2 = 1 then b else a).id,
             sub2 := (if j % 2 = 1 then a else b).id }] := hdb2
      subst hdb2b
      subst hgame
      refine ⟨({ id := nid, status := "queued", winner_id := none,
                 log_url := "" } : Game) :: app,
        ({ id := nid, status := "queued", winner_id := none, log_url := "",
           sub1 := (if j % 2 = 1 then b else a).id,
           sub2 := (if j % 2 = 1 then a else b).id } : DbGame) :: newRows,
        nid2, ?_, ?_, ?_, ?_, ?_, ?_⟩
      · dsimp only at hstep2
        rw [List.append_assoc, List.append_assoc, List.singleton_append,
          List.singleton_append] at hstep2
        exact hstep2
      · simp [hlen]
      · intro r hr
        rcases List.mem_cons.mp hr with h | h
        · rw [h]
        · exact hq r h
      · simp [List.filter_cons, hcnt]
      · intro g hg
        rcases List.mem_cons.mp hg with h | h
        · rw [h]; exact Or.inl rfl
        · exact hstat g h
      · intro m g hm
        cases m with
        | zero =>
          have hg : g =
              { id := nid, status := "queued", winner_id := none,
                log_url := "" } := (Option.some.inj hm).symm
          subst hg
          refine Or.inl ⟨rfl, _, List.mem_cons_self _ _, rfl, ?_, ?_⟩
          · rw [Nat.add_zero]
            by_cases h : j % 2 = 1 <;> simp [h]
          · rw [Nat.add_zero]
            by_cases h : j % 2 = 1 <;> simp [h]
        | succ m =>
          have hm2 : app.get? m = some g := hm
          have harith : j + (m + 1) = j + 1 + m := by omega
          rcases hclause m g hm2 with ⟨hgq, row, hrmem, hrid, hr1, hr2⟩ |
            ⟨hgf, row, hrmem, hrst, hra, hrb, hgrw⟩
          · rw [harith]
            exact Or.inl ⟨hgq, row, List.mem_cons_of_mem _ hrmem, hrid, hr1, hr2⟩
          · rcases List.mem_append.mp hrmem with h | h
            · exact Or.inr ⟨hgf, row, h, hrst, hra, hrb, hgrw⟩
            · exfalso
              have hrq : row =
                  { id := nid, status := "queued", winner_id := none,
                    log_url := "", sub1 := (if j % 2 = 1 then b else a).id,
                    sub2 := (if j % 2 = 1 then a else b).id } :=
                List.mem_singleton.mp h
              rw [hrq] at hrst
              have hqf : ("queued" : String) = "finished" := hrst
              exact absurd hqf (by decide)
    · -- reused finished game, state untouched
      have hdb2b : db2 = db := hdb2
      subst hdb2b
      refine ⟨game :: app, newRows, nid2, ?_, ?_, hq, ?_, ?_, ?_⟩
      · dsimp only at hstep2
        rw [List.append_assoc, List.singleton_append] at hstep2
        exact hstep2
      · simp [hlen]
      · simp [List.filter_cons, hgstat, hcnt]
      · intro g hg
        rcases List.mem_cons.mp hg with h | h
        · rw [h]; exact Or.inr hgstat
        · exact hstat g h
      · intro m g hm
        cases m with
        | zero =>
          have hg : g = game := (Option.some.inj hm).symm
          subst hg
          refine Or.inr ⟨hgstat, row0, hr0mem, hr0stat, ?_, ?_, hgrow0⟩
          · rcases Nat.decEq (j % 2) 1 with h | h
            · rw [if_neg h] at hr0l
              exact hr0l
            · rw [if_pos h] at hr0r
              exact hr0r
          · rcases Nat.decEq (j % 2) 1 with h | h
            · rw [if_neg h] at hr0r
              exact hr0r
            · rw [if_pos h] at hr0l
              exact hr0l
        | succ m =>
          have hm2 : app.get? m = some g := hm
          have harith : j + (m + 1) = j + 1 + m := by omega
          rcases hclause m g hm2 with ⟨hgq, row, hrmem, hrid, hr1, hr2⟩ |
            ⟨hgf, row, hrmem, hrst, hra, hrb, hgrw⟩
          · rw [harith]
            exact Or.inl ⟨hgq, row, hrmem, hrid, hr1, hr2⟩
          · exact Or.inr ⟨hgf, row, hrmem, hrst, hra, hrb, hgrw⟩

/-- C7: For every node with two real (non-BYE) submissions, no declared
winner, and fewer than BEST_OF attached finished/queued/playing games,
create_needed_games attaches games until exactly BEST_OF such games are
attached; each attached game is either a fresh queued row whose
games_submissions order alternates with the game index (so reused finished
games count toward BEST_OF), or, under REUSE_OLD_GAMES, the projection of
a prior finished head-to-head row of the games table; exactly the fresh
games insert queued rows, and create_or_reuse_game with a reusable game
available returns it without touching the state, so no queued duplicate is
created for that slot. -/
theorem create_needed_games_spec (best_of : Nat) (reuse : Bool)
    (db : List DbGame) (nid : Int) (nd : Node) (a b : Submission)
    (hsubs : nd.submissions = [a, b]) (ha : a ≠ BYE) (hb : b ≠ BYE)
    (hw : nd.winner = none)
    (hcount : (counted_games nd.games).length < best_of) :
    ∃ app newRows nid2,
      create_needed_games best_of reuse ⟨db, nid, [nd]⟩ =
        ⟨db ++ newRows, nid2, [{ nd with games := nd.games ++ app }]⟩ ∧
      (counted_games (nd.games ++ app)).length = best_of ∧
      (∀ r, r ∈ newRows → r.status = "queued") ∧
      newRows.length = (app.filter (fun g => g.status = "queued")).length ∧
      (∀ m g, app.get? m = some g →
        (g.status = "queued" ∧
          ∃ row, row ∈ newRows ∧ row.id = g.id ∧
            row.sub1 = (if ((counted_games nd.games).length + m) % 2 = 1
              then b.id else a.id) ∧
            row.sub2 = (if ((counted_games nd.games).length + m) % 2 = 1
              then a.id else b.id)) ∨
        (g.status = "finished" ∧
          ∃ row, row ∈ db ∧ row.status = "finished" ∧
            (a.id = row.sub1 ∨ a.id = row.sub2) ∧
            (b.id = row.sub1 ∨ b.id = row.sub2) ∧
            g = db_game_to_game row)) ∧
      (∀ (st : SchedState) (l r : Submission) (g : Game) (gtail : List Game),
        get_unused_game st.db l r (used_game_ids st.nodes) = g :: gtail →
        create_or_reuse_game true st l r = (g, st)) := by
  obtain ⟨subs, fs, ifs, gs, w, l, wc, lc⟩ := nd
  have hsubs2 : subs = [a, b] := hsubs
  subst hsubs2
  have hw2 : w = none := hw
  subst hw2
  have hnm : BYE ∉ [a, b] := by
    intro hmem
    rcases List.mem_cons.mp hmem with h | h
    · exact ha h.symm
    · exact hb (List.mem_singleton.mp h).symm
  have h1 : create_needed_games best_of reuse
      ⟨db, nid, [Node.mk [a, b] fs ifs gs none l wc lc]⟩ =
      (if BYE ∈ [a, b] then
        (⟨db, nid, [Node.mk [a, b] fs ifs gs none l wc lc]⟩ : SchedState)
      else create_games_loop reuse 0
        (List.range' (counted_games gs).length
          (best_of - (counted_games gs).length))
        ⟨db, nid, [Node.mk [a, b] fs ifs gs none l wc lc]⟩) := rfl
  rw [if_neg hnm] at h1
  obtain ⟨app, newRows, nid2, hrun, hlen, hq, hcnt, hstat, hclause⟩ :=
    create_games_loop_spec reuse a b (best_of - (counted_games gs).length)
      (counted_games gs).length db nid (Node.mk [a, b] fs ifs gs none l wc lc) rfl
  refine ⟨app, newRows, nid2, by rw [h1, hrun], ?_, hq, hcnt, hclause, ?_⟩
  · have hfe : List.filter
        (fun g => decide (g.status = "finished" ∨ g.status = "queued" ∨
          g.status = "playing")) app = app := by
      rw [List.filter_eq_self]
      intro g hg
      rcases hstat g hg with h | h <;> rw [h] <;> decide
    have hca : counted_games (gs ++ app) = counted_games gs ++ app := by
      rw [counted_games, List.filter_append]
      rw [counted_games]
      rw [hfe]
    have hca2 : counted_games
        ((Node.mk [a, b] fs ifs gs none l wc lc).games ++ app) =
        counted_games gs ++ app := hca
    rw [hca2, List.length_append, hlen]
    have hcount2 : (counted_games gs).length < best_of := hcount
    omega
  · intro st l2 r2 g gtail hgu
    have h2 : create_or_reuse_game true st l2 r2 =
        (match get_unused_game st.db l2 r2 (used_game_ids st.nodes) with
         | g :: _ => (g, st)
         | [] => create_queued_game st l2 r2) := rfl
    rw [hgu] at h2
    exact h2

/-- A two-submission node with no games, used to instantiate the
game-creation specification. -/
def c7a : Submission := { id := 10, name := "A", version := 1, status := "finished" }

/-- Second submission of the instantiation node. -/
def c7b : Submission := { id := 11, name := "B", version := 1, status := "finished" }

/-- The instantiation node itself: two real submissions, no winner, no
games attached yet. -/
def c7node : Node :=
  { submissions := [c7a, c7b], feeders := [], inverted_feeders := [], games := [],
    winner := none, loser := none, winner_child := none, loser_child := none }

theorem create_needed_games_spec_witness :
    ∃ app newRows nid2,
      create_needed_games 2 false ⟨[], 100, [c7node]⟩ =
        ⟨[] ++ newRows, nid2, [{ c7node with games := c7node.games ++ app }]⟩ ∧
      (counted_games (c7node.games ++ app)).length = 2 := by
  obtain ⟨app, newRows, nid2, h1, h2, _⟩ :=
    create_needed_games_spec 2 false [] 100 c7node c7a c7b rfl (by decide)
      (by decide) rfl (by decide)
  exact ⟨app, newRows, nid2, h1, h2⟩
